import Mathlib

/-!
Verification of the castle orchestrator against its specification.

Each component of the source that the checked claims touch is shallowly
embedded below: Python strings are modelled as `List Char` where character
level reasoning is needed and as opaque `String`s elsewhere; Python dicts
are modelled as insertion-ordered association lists; fallible code returns
`Except`; filesystem effects are modelled as explicit operation traces or
as function parameters.

Definitions come first, theorems afterwards.
-/

set_option maxHeartbeats 1000000
set_option maxRecDepth 100000

abbrev Chars := List Char

/-! ### Event bus (src/dashboard-api/src/dashboard_api/bus.py)

The in-memory subscription table of `EventBus`.  A Python `dict` preserves
insertion order and has unique keys; it is modelled as an association list.
-/

namespace EventBus

structure Subscription where
  topic : String
  callback_url : String
  subscriber : String
deriving DecidableEq, Repr

abbrev Table := List (String × List Subscription)

/-- First-match lookup of a topic's subscriber list, `[]` when absent
(Python `self.subscriptions[topic]` is only read after a membership check). -/
def lookupSubs (topic : String) (t : Table) : List Subscription :=
  match t.find? (fun e => e.1 == topic) with
  | some e => e.2
  | none => []

/-- Whether `topic in self.subscriptions`. -/
def hasTopic (topic : String) (t : Table) : Bool :=
  t.any (fun e => e.1 == topic)

/-- Replace the value stored under the first entry with key `topic`. -/
def updateFirst (topic : String) (f : List Subscription → List Subscription) :
    Table → Table
  | [] => []
  | e :: rest =>
    if e.1 == topic then (e.1, f e.2) :: rest else e :: updateFirst topic f rest

/-- Remove the first entry with key `topic` (Python `del d[topic]`). -/
def deleteFirst (topic : String) : Table → Table
  | [] => []
  | e :: rest => if e.1 == topic then rest else e :: deleteFirst topic rest

/-- EventBus.subscribe: create the topic entry if absent, return unchanged when
the `(topic, callback_url)` pair is already present, otherwise append. -/
def subscribe (topic callback_url subscriber : String) (t : Table) : Table :=
  let t1 := if hasTopic topic t then t else t ++ [(topic, [])]
  if (lookupSubs topic t1).any (fun s => s.callback_url == callback_url) then t1
  else updateFirst topic
    (fun subs => subs ++ [⟨topic, callback_url, subscriber⟩]) t1

/-- EventBus.unsubscribe: returns (removed?, new table); drops the topic entry
when its filtered subscriber list becomes empty. -/
def unsubscribe (topic callback_url : String) (t : Table) : Bool × Table :=
  if hasTopic topic t = false then (false, t)
  else
    let before := (lookupSubs topic t).length
    let newSubs :=
      (lookupSubs topic t).filter (fun s => !(s.callback_url == callback_url))
    let removed := decide (newSubs.length < before)
    let t1 := updateFirst topic (fun _ => newSubs) t
    if newSubs.isEmpty then (removed, deleteFirst topic t1) else (removed, t1)

/-- EventBus.list_topics: every topic with its subscriber summaries. -/
def list_topics (t : Table) : List (String × List (String × String)) :=
  t.map (fun e => (e.1, e.2.map (fun s => (s.callback_url, s.subscriber))))

/-- One bus mutation, for reachability statements. -/
inductive Op where
  | sub (topic callback_url subscriber : String)
  | unsub (topic callback_url : String)
deriving Repr

def applyOp (t : Table) : Op → Table
  | .sub topic u lbl => subscribe topic u lbl t
  | .unsub topic u => (unsubscribe topic u t).2

def applyOps (ops : List Op) : Table :=
  ops.foldl applyOp []

/-- The bus invariant: topic keys are unique, every present topic has a
non-empty subscriber list, and no two subscriptions under one topic share a
callback URL. -/
def WF (t : Table) : Prop :=
  (t.map Prod.fst).Nodup ∧
  (∀ e ∈ t, e.2 ≠ []) ∧
  (∀ e ∈ t, (e.2.map Subscription.callback_url).Nodup)

end EventBus

/-! ### SSE stream fan-out (src/dashboard-api/src/dashboard_api/stream.py)

Each connected client owns an `asyncio.Queue(maxsize=64)`.  Queues are
distinct Python objects; the model tags each with an identifier `qid`, and
`list.remove` (identity-based for queues) removes the first entry with the
dead queue's identifier.  `put_nowait` either appends (when the queue holds
fewer than `maxsize` items) or raises `QueueFull` without waiting, so the
whole broadcast is modelled as a pure function: no step of it can block.
-/

namespace Stream

structure Queue where
  qid : Nat
  items : List String
deriving DecidableEq, Repr

def maxsize : Nat := 64

/-- The SSE frame `broadcast` formats: `event: <type>\ndata: <json>\n\n`.
The `json.dumps` of the data dict is abstracted as the string `dataJson`. -/
def formatFrame (eventType dataJson : String) : String :=
  "event: " ++ eventType ++ "\ndata: " ++ dataJson ++ "\n\n"

/-- Remove the first queue satisfying `p` (Python `list.remove`, wrapped by
`unsubscribe` which ignores a missing element). -/
def removeFirst (p : Queue → Bool) : List Queue → List Queue
  | [] => []
  | q :: rest => if p q then rest else q :: removeFirst p rest

/-- Phase 1 of `broadcast`: `put_nowait` on every queue; full queues are left
unchanged (they raise `QueueFull` instead). -/
def enqueueAll (frame : String) (subs : List Queue) : List Queue :=
  subs.map (fun q =>
    if q.items.length < maxsize then { q with items := q.items ++ [frame] } else q)

/-- The queues whose `put_nowait` raised `QueueFull` during the iteration. -/
def deadOf (subs : List Queue) : List Queue :=
  subs.filter (fun q => !(q.items.length < maxsize))

/-- Phase 2 of `broadcast`: each dead queue is `unsubscribe`d, i.e. its first
occurrence (by identity) is removed from the subscriber list. -/
def removeDead (dead : List Queue) (subs : List Queue) : List Queue :=
  dead.foldl (fun acc d => removeFirst (fun q => q.qid == d.qid) acc) subs

/-- `broadcast(event_type, data)` over the subscriber list. -/
def broadcast (eventType dataJson : String) (subs : List Queue) : List Queue :=
  let frame := formatFrame eventType dataJson
  removeDead (deadOf subs) (enqueueAll frame subs)

end Stream

/-! ### JSON / YAML data values

A single value type serves both the MQTT JSON payload
(`castle_api/mqtt_client.py`) and the YAML data dict built by
`castle_core/registry.py`.  Objects keep the (insertion-ordered) key list of
the Python dict they model. -/

inductive Jval where
  | str (s : String)
  | num (n : Int)
  | bool (b : Bool)
  | arr (xs : List Jval)
  | obj (fields : List (String × Jval))
deriving Repr

mutual

/-- Whether key `k` occurs at any nesting level of a value. -/
def jsonHasKey (k : String) : Jval → Bool
  | .str _ => false
  | .num _ => false
  | .bool _ => false
  | .arr xs => arrHasKey k xs
  | .obj fields => objHasKey k fields

def arrHasKey (k : String) : List Jval → Bool
  | [] => false
  | v :: rest => jsonHasKey k v || arrHasKey k rest

def objHasKey (k : String) : List (String × Jval) → Bool
  | [] => false
  | e :: rest => e.1 == k || jsonHasKey k e.2 || objHasKey k rest

end

/-! ### Mesh registry serialization (src/castle-api/src/castle_api/mqtt_client.py)

`_registry_to_json` reads the fields `runner`, `category`, `description`,
`port`, `health_path`, `proxy_path`, `schedule`, `managed` of each deployed
component; the `DeployedComponent` shape below is the one this module was
written against (its own `_json_to_registry` constructs exactly these
fields).  Python truthiness on optional strings (`if comp.description:`)
skips both `None` and the empty string. -/

namespace Mqtt

structure DeployedComponent where
  runner : String
  runCmd : List String := []
  env : List (String × String) := []
  description : Option String := none
  category : String := "service"
  port : Option Int := none
  health_path : Option String := none
  proxy_path : Option String := none
  schedule : Option String := none
  managed : Bool := false
deriving Repr

structure NodeConfig where
  hostname : String
  castle_root : Option String := none
  gateway_port : Int := 9000
deriving Repr

structure NodeRegistry where
  node : NodeConfig
  deployed : List (String × DeployedComponent) := []
deriving Repr

/-- Optional-string truthiness: emit the key only for a non-None, non-empty
value. -/
def strField (key : String) (v : Option String) : List (String × Jval) :=
  match v with
  | some s => if s = "" then [] else [(key, .str s)]
  | none => []

/-- One entry of the `deployed` object in `_registry_to_json`. -/
def entryJson (comp : DeployedComponent) : Jval :=
  .obj ([("runner", .str comp.runner), ("category", .str comp.category)]
    ++ strField "description" comp.description
    ++ (match comp.port with
        | some p => [("port", .num p)]
        | none => [])
    ++ strField "health_path" comp.health_path
    ++ strField "proxy_path" comp.proxy_path
    ++ strField "schedule" comp.schedule
    ++ (if comp.managed then [("managed", .bool true)] else []))

/-- `_registry_to_json`: the sanitized payload published (retained) on
`castle/<host>/registry`. -/
def registry_to_json (r : NodeRegistry) : Jval :=
  .obj
    [("node", .obj [("hostname", .str r.node.hostname),
                    ("gateway_port", .num r.node.gateway_port)]),
     ("deployed", .obj (r.deployed.map (fun e => (e.1, entryJson e.2))))]

end Mqtt

/-! ### Registry persistence (src/core/src/castle_core/registry.py)

`save_registry` is modelled as the trace of filesystem operations it
performs.  The `FsOp` vocabulary includes the operations an atomic
write-temp/fsync/rename save would use, so that their absence from the
actual trace is a meaningful statement.  `yaml.dump` is an external
library call, abstracted as the `dump` parameter. -/

namespace Reg

/-- The `DeployedComponent` shape of `castle_core/registry.py` (fields
`behavior` and `stack`, no `category`). -/
structure DeployedComponent where
  runner : String
  runCmd : List String := []
  env : List (String × String) := []
  description : Option String := none
  behavior : String := "daemon"
  stack : Option String := none
  port : Option Int := none
  health_path : Option String := none
  proxy_path : Option String := none
  schedule : Option String := none
  managed : Bool := false
deriving Repr

structure NodeConfig where
  hostname : String
  castle_root : Option String := none
  gateway_port : Int := 9000
deriving Repr

structure NodeRegistry where
  node : NodeConfig
  deployed : List (String × DeployedComponent) := []
deriving Repr

/-- A path, as its list of components. -/
abbrev PathT := List String

inductive FsOp where
  | mkdirParents (dir : PathT)
  | write (path : PathT) (content : String)
  | fsync (path : PathT)
  | rename (src dst : PathT)
deriving DecidableEq, Repr

def FsOp.isRename : FsOp → Bool
  | .rename _ _ => true
  | _ => false

def FsOp.isFsync : FsOp → Bool
  | .fsync _ => true
  | _ => false

def FsOp.isWrite : FsOp → Bool
  | .write _ _ => true
  | _ => false

def FsOp.writeTarget : FsOp → Option PathT
  | .write p _ => some p
  | _ => none

/-- Optional-string truthiness helper, as in the serializer above. -/
def strField (key : String) (v : Option String) : List (String × Jval) :=
  match v with
  | some s => if s = "" then [] else [(key, .str s)]
  | none => []

/-- The per-component entry dict built by `save_registry`. -/
def entryData (comp : DeployedComponent) : Jval :=
  .obj ([("runner", .str comp.runner),
         ("run_cmd", .arr (comp.runCmd.map .str))]
    ++ (if comp.env.isEmpty then []
        else [("env", .obj (comp.env.map (fun e => (e.1, Jval.str e.2))))])
    ++ strField "description" comp.description
    ++ [("behavior", .str comp.behavior)]
    ++ strField "stack" comp.stack
    ++ (match comp.port with
        | some p => [("port", .num p)]
        | none => [])
    ++ strField "health_path" comp.health_path
    ++ strField "proxy_path" comp.proxy_path
    ++ strField "schedule" comp.schedule
    ++ (if comp.managed then [("managed", .bool true)] else []))

/-- The full data dict `save_registry` passes to `yaml.dump`: node identity
(with `castle_root` appended when truthy) followed by the deployed map. -/
def registryData (r : NodeRegistry) : Jval :=
  .obj
    [("node", .obj ([("hostname", .str r.node.hostname),
                     ("gateway_port", .num r.node.gateway_port)]
       ++ (match r.node.castle_root with
           | some s => if s = "" then [] else [("castle_root", .str s)]
           | none => []))),
     ("deployed", .obj (r.deployed.map (fun e => (e.1, entryData e.2))))]

/-- The filesystem operations `save_registry` performs, in order: create the
parent directory, then open the final path for writing and dump the YAML
into it directly. -/
def save_registry (dump : Jval → String) (r : NodeRegistry) (path : PathT) :
    List FsOp :=
  [FsOp.mkdirParents path.dropLast, FsOp.write path (dump (registryData r))]

end Reg

/-! ### Python string helpers

Shared models of the `str` methods the character-level code uses.
`str.strip` is modelled over the ASCII whitespace set (the exotic Unicode
whitespace Python also strips never occurs in the inputs reasoned about);
`int(...)` is modelled for an optional sign followed by digits (digit-group
underscores are not modelled, and no theorem evaluates it on such input). -/

namespace Py

def pyIsSpace (c : Char) : Bool :=
  c == ' ' || c == '\t' || c == '\n' || c == '\r' || c == '\x0b' || c == '\x0c'

/-- `s.strip()`. -/
def pyStrip (s : Chars) : Chars :=
  ((s.dropWhile pyIsSpace).reverse.dropWhile pyIsSpace).reverse

/-- One `foldr` step of whitespace splitting: close the current word at a
space, otherwise extend it. -/
def splitStep (c : Char) (acc : List Chars × Chars) : List Chars × Chars :=
  if pyIsSpace c then (if acc.2.isEmpty then acc else (acc.2 :: acc.1, []))
  else (acc.1, c :: acc.2)

/-- `s.split()` with no separator: split on whitespace runs, no empty
fields. -/
def pySplitWs (s : Chars) : List Chars :=
  let r := s.foldr splitStep ([], [])
  if r.2.isEmpty then r.1 else r.2 :: r.1

/-- `s.split(sep)` for a one-character separator: fields between separator
occurrences, empty fields kept. -/
def splitChar (sep : Char) (s : Chars) : List Chars :=
  let r := s.foldr
    (fun c (acc : List Chars × Chars) =>
      if c = sep then (acc.2 :: acc.1, []) else (acc.1, c :: acc.2))
    ([], [])
  r.2 :: r.1

/-- `s.zfill(2)`: pad on the left with zeros to width 2 (the sign-aware
behaviour of `zfill` on signed strings is not modelled; every use below is
on digit strings or `"*"`). -/
def zfill2 (s : Chars) : Chars :=
  if s.length < 2 then List.replicate (2 - s.length) '0' ++ s else s

/-- Value of a digit string. -/
def natVal (ds : Chars) : Nat :=
  ds.foldl (fun acc c => acc * 10 + (c.toNat - 48)) 0

/-- `int(s)`: strip, optional sign, digits; anything else raises
(modelled as `none`). -/
def pyIntParse (s : Chars) : Option Int :=
  match pyStrip s with
  | '+' :: ds =>
    if !ds.isEmpty && ds.all Char.isDigit then some (Int.ofNat (natVal ds))
    else none
  | '-' :: ds =>
    if !ds.isEmpty && ds.all Char.isDigit then some (-(Int.ofNat (natVal ds)))
    else none
  | ds =>
    if !ds.isEmpty && ds.all Char.isDigit then some (Int.ofNat (natVal ds))
    else none

end Py

/-! ### Registry compilation of run commands
(src/cli/src/castle_cli/commands/deploy.py)

`_build_run_cmd` dispatches on the `runner` tag of a run spec.  The
discriminated union of run specs is flattened into one record; only the
fields of the active variant are read by each branch.  `shutil.which` is the
`which` parameter (`none` models a failed lookup).  Python `or` chains pick
the first truthy operand, where `None` and `""` are falsy. -/

namespace Deploy

structure RunSpec where
  runner : String
  tool : String := ""
  args : List String := []
  argv : List String := []
  image : String := ""
  ports : List (Nat × Nat) := []
  volumes : List String := []
  env : List (String × String) := []
  workdir : Option String := none
  command : Option (List String) := none
  package_manager : String := "pnpm"
  script : String := ""
deriving Repr

/-- `a or b` on an optional string, with Python truthiness. -/
def orTruthy (a : Option String) (b : String) : String :=
  match a with
  | some s => if s = "" then b else s
  | none => b

/-- `image.split("/")[-1].split(":")[0]`. -/
def imageBase (image : String) : String :=
  ⟨(Py.splitChar ':' ((Py.splitChar '/' image.data).getLastD [])).headD []⟩

/-- The container runtime `_build_run_cmd` picks:
`shutil.which("docker") or shutil.which("podman") or "docker"`. -/
def containerRuntime (which : String → Option String) : String :=
  orTruthy (which "docker") (orTruthy (which "podman") "docker")

/-- `_build_run_cmd(run, env)`.  `env` is the already-merged process
environment (conventions, defaults, resolved secrets). -/
def buildRunCmd (which : String → Option String) (run : RunSpec)
    (env : List (String × String)) : Except String (List String) :=
  match run.runner with
  | "python" =>
    .ok (orTruthy (which run.tool) run.tool :: run.args)
  | "command" =>
    match run.argv with
    | [] => .error "IndexError: list index out of range"
    | a0 :: rest => .ok (orTruthy (which a0) a0 :: rest)
  | "container" =>
    let runtime := containerRuntime which
    let cmd := [runtime, "run", "--rm", "--name=castle-" ++ imageBase run.image]
    let cmd := cmd ++
      (run.ports.map (fun p => ["-p", Nat.repr p.2 ++ ":" ++ Nat.repr p.1])).flatten
    let cmd := cmd ++ (run.volumes.map (fun v => ["-v", v])).flatten
    let cmd := cmd ++ (run.env.map (fun e => ["-e", e.1 ++ "=" ++ e.2])).flatten
    let cmd := cmd ++ (env.map (fun e => ["-e", e.1 ++ "=" ++ e.2])).flatten
    let cmd := cmd ++
      (match run.workdir with
       | some w => if w = "" then [] else ["-w", w]
       | none => [])
    let cmd := cmd ++ [run.image]
    let cmd := cmd ++ (match run.command with | some cs => cs | none => [])
    .ok (cmd ++ run.args)
  | "node" =>
    .ok (run.package_manager :: "run" :: run.script :: run.args)
  | other => .error ("Unsupported runner: " ++ other)

end Deploy

/-! ### Registry-based systemd unit generation

Modelled from the spec: `generate_unit_from_deployed` is exported by
`castle_core.generators`, called by the deploy command and exercised by
`core/tests/test_systemd.py`, but its definition is absent from the source
tree — the checked-in `generators/systemd.py` is an older, manifest-based
revision of the file (it imports `ComponentManifest`, which no longer
exists in `castle_core.manifest`).  The unit below follows the template of
spec §4.3: `[Unit]` with description and ordering, `[Service]` with type,
`ExecStart` from the resolved command, one `Environment=` line per env
entry plus a fixed `PATH` line, the restart block only for unscheduled
daemons, optional reload/hardening directives, and `[Install]`.  The unit
is represented as its list of lines; no line for `WorkingDirectory` exists
in the template. -/

namespace Sysd

/-- The systemd sideband options (shape of `SystemdSpec` in
`castle_core/manifest.py`). -/
structure SystemdSpec where
  description : Option Chars := none
  after : List Chars := []
  wanted_by : List Chars := ["default.target".data]
  restart : Chars := "on-failure".data
  restart_sec : Nat := 2
  no_new_privileges : Bool := true
  exec_reload : Option Chars := none
deriving Repr

/-- The deployed-component fields the unit depends on. -/
structure DeployedView where
  runCmd : List Chars := []
  env : List (Chars × Chars) := []
  description : Option Chars := none
  schedule : Option Chars := none
deriving Repr

/-- Space-join a list of words (`" ".join(...)`). -/
def joinSp (ws : List Chars) : Chars :=
  match ws with
  | [] => []
  | w :: rest => rest.foldl (fun acc x => acc ++ (' ' :: x)) w

def envLine (e : Chars × Chars) : Chars :=
  "Environment=".data ++ (e.1 ++ ('=' :: e.2))

def pathLine (home : Chars) : Chars :=
  "Environment=\"PATH=".data ++
    (home ++ "/.local/bin:/usr/local/bin:/usr/bin:/bin\"".data)

/-- Modelled from the spec: `generate_unit_from_deployed(name, deployed,
systemd_spec)`, as the list of lines of the emitted unit file. -/
def generateUnitLines (name : Chars) (d : DeployedView)
    (sd : Option SystemdSpec) (home : Chars) : List Chars :=
  let scheduled := d.schedule.isSome
  let desc :=
    match sd with
    | some s => (s.description.getD (d.description.getD name))
    | none => d.description.getD name
  let afterStr :=
    match sd with
    | some s => if s.after.isEmpty then "network.target".data else joinSp s.after
    | none => "network.target".data
  let wantedStr :=
    match sd with
    | some s => joinSp s.wanted_by
    | none => "default.target".data
  ["[Unit]".data,
   "Description=Castle: ".data ++ desc,
   "After=".data ++ afterStr,
   [],
   "[Service]".data,
   "Type=".data ++ (if scheduled then "oneshot".data else "simple".data),
   "ExecStart=".data ++ joinSp d.runCmd]
  ++ d.env.map envLine
  ++ [pathLine home]
  ++ (if scheduled then []
      else
        ["Restart=".data ++ (match sd with
                             | some s => s.restart
                             | none => "on-failure".data),
         "RestartSec=".data ++
           (Nat.repr (match sd with | some s => s.restart_sec | none => 5)).data,
         "SuccessExitStatus=143".data])
  ++ (match sd with
      | some s =>
        (match s.exec_reload with
         | some cmd => ["ExecReload=".data ++ cmd]
         | none => [])
        ++ (if s.no_new_privileges then ["NoNewPrivileges=true".data] else [])
      | none => [])
  ++ [[], "[Install]".data, "WantedBy=".data ++ wantedStr]

/-- The unit file text joins the lines with newlines. -/
def generateUnitText (name : Chars) (d : DeployedView)
    (sd : Option SystemdSpec) (home : Chars) : Chars :=
  match generateUnitLines name d sd home with
  | [] => []
  | l :: rest => rest.foldl (fun acc x => acc ++ ('\n' :: x)) l

end Sysd


/-! ### Secret resolution (src/core/src/castle_core/config.py)

`resolve_env_vars` substitutes `re.sub(r"\$\x7b([^\x7d]+)\x7d", ...)` over
each value: at every occurrence of a dollar-brace group with a non-empty
brace-free body, a body starting with `secret:` is replaced by the secret
file's stripped content or by the literal `<MISSING_SECRET:NAME>`
placeholder, and any other body is left unchanged (`match.group(0)`).  The
secrets directory is the map `fs` from file name to raw content (`none`
models a missing file).  The scanner below walks the string left to right
exactly as `re.sub` finds non-overlapping leftmost matches. -/

namespace Config

/-- `_read_secret`: stripped file content, or the placeholder when the file
does not exist.  Total: it never raises. -/
def readSecret (fs : Chars → Option Chars) (name : Chars) : Chars :=
  match fs name with
  | some content => Py.pyStrip content
  | none => "<MISSING_SECRET:".data ++ name ++ ">".data

/-- Split at the first closing brace: `some (before, after)`, carrying the
length certificate used for termination of the scanner. -/
def findBrace : (l : Chars) → Option (Chars × { r : Chars // r.length < l.length })
  | [] => none
  | c :: rest =>
    if c = '\x7d' then some ([], ⟨rest, Nat.lt_succ_self rest.length⟩)
    else
      match findBrace rest with
      | some p => some (c :: p.1, ⟨p.2.1, Nat.lt_succ_of_lt p.2.2⟩)
      | none => none

/-- The `re.sub` scan: at `"$\x7b"`, when a closing brace follows with a
non-empty brace-free body, replace a `secret:`-body via `readSecret` and
leave any other matched group unchanged, then continue after the brace;
when no match starts here, emit one character and continue. -/
def subst (fs : Chars → Option Chars) : Chars → Chars
  | [] => []
  | '$' :: '\x7b' :: rest =>
    (match findBrace rest with
     | some p =>
       if p.1.isEmpty then '$' :: subst fs ('\x7b' :: rest)
       else
         (if "secret:".data.isPrefixOf p.1 then readSecret fs (p.1.drop 7)
          else '$' :: '\x7b' :: (p.1 ++ ['\x7d'])) ++ subst fs p.2.1
     | none => '$' :: subst fs ('\x7b' :: rest))
  | c :: rest => c :: subst fs rest
termination_by l => l.length
decreasing_by
  all_goals first
  | (have h := p.2.2; simp only [List.length_cons]; omega)
  | (simp only [List.length_cons]; omega)

/-- `resolve_env_vars`: substitute every value of the environment map. -/
def resolve_env_vars (fs : Chars → Option Chars)
    (env : List (Chars × Chars)) : List (Chars × Chars) :=
  env.map (fun kv => (kv.1, subst fs kv.2))

end Config

/-! ### Cron conversion and timer generation
(src/core/src/castle_core/generators/systemd.py)

`cron_to_oncalendar`, `cron_to_interval_sec` and the `generate_timer`
assembly, with Python truthiness on the interval (`elif interval_sec:` is
false for both `None` and `0`).  A manifest is reduced to the fields the
timer reads: its description and its trigger list. -/

namespace Cron

/-- `cron.strip().split()`. -/
def cronFields (cron : Chars) : List Chars :=
  Py.pySplitWs (Py.pyStrip cron)

/-- `cron_to_oncalendar`: best-effort conversion to a calendar spec,
`""` when `OnUnitActiveSec` should be used or the pattern is unsupported. -/
def cron_to_oncalendar (cron : Chars) : Chars :=
  match cronFields cron with
  | [minute, hour, dom, month, dow] =>
    if "*/".data.isPrefixOf minute && hour == "*".data && dom == "*".data &&
        month == "*".data && dow == "*".data then
      []
    else if dom == "*".data && month == "*".data && dow == "*".data then
      let h := if hour == "*".data then "*".data else Py.zfill2 hour
      let m := if minute == "*".data then "*".data else Py.zfill2 minute
      "*-*-* ".data ++ h ++ (':' :: m) ++ ":00".data
    else []
  | _ => []

/-- `cron_to_interval_sec`: seconds for `*/N` minute patterns. -/
def cron_to_interval_sec (cron : Chars) : Option Int :=
  match cronFields cron with
  | [minute, hour, dom, month, dow] =>
    if "*/".data.isPrefixOf minute && hour == "*".data && dom == "*".data &&
        month == "*".data && dow == "*".data then
      match Py.pyIntParse (minute.drop 2) with
      | some n => some (n * 60)
      | none => none
    else none
  | _ => none

structure Trigger where
  type : Chars
  cron : Chars
deriving Repr

structure Manifest where
  description : Option Chars := none
  triggers : List Trigger := []
deriving Repr

/-- `get_schedule_trigger`: the first trigger whose type is `schedule`. -/
def get_schedule_trigger (m : Manifest) : Option Trigger :=
  m.triggers.find? (fun t => t.type == "schedule".data)

/-- The `[Timer]` body chosen by `generate_timer`. -/
def timerLines (cron : Chars) : Chars :=
  let on_calendar := cron_to_oncalendar cron
  if !on_calendar.isEmpty then
    "OnCalendar=".data ++ on_calendar ++ "\n".data
  else
    match cron_to_interval_sec cron with
    | some k =>
      if k == 0 then "OnBootSec=60\nOnUnitActiveSec=300\n".data
      else "OnBootSec=60\nOnUnitActiveSec=".data ++ (Int.repr k).data ++ "s\n".data
    | none => "OnBootSec=60\nOnUnitActiveSec=300\n".data

/-- `generate_timer(name, manifest)`: `None` without a schedule trigger,
otherwise the timer unit text. -/
def generate_timer (name : Chars) (m : Manifest) : Option Chars :=
  match get_schedule_trigger m with
  | none => none
  | some trig =>
    let description :=
      match m.description with
      | some d => if d.isEmpty then name else d
      | none => name
    some ("[Unit]\nDescription=Castle timer: ".data ++ description
      ++ "\n\n[Timer]\n".data ++ timerLines trig.cron
      ++ "Persistent=false\n\n[Install]\nWantedBy=timers.target\n".data)

end Cron

/-! ### Secrets API (src/castle-api/src/castle_api/secrets.py)

`_validate_name` runs before any filesystem access in each endpoint; an
invalid name raises HTTP 400.  Paths are modelled as component lists
(`pathlib` drops empty and single-dot segments when joining), and each
endpoint is paired with the list of paths it touches after validation. -/

namespace Secrets

abbrev PathC := List Chars

/-- `_validate_name`: reject empty names and names containing a slash, a
backslash, or the substring `".."`. -/
def validate_name (name : Chars) : Bool :=
  !(name.contains '/' || name.contains '\\' || decide ("..".data <:+: name) ||
    name.isEmpty)

/-- Split on `/`, keeping empty fields (Python `str.split("/")`). -/
def splitSlash (s : Chars) : List Chars :=
  Py.splitChar '/' s

/-- `pathlib` join `dir / name`: empty and `"."` segments vanish; a leading
slash makes the name absolute (the root marker itself is implicit in the
component-list representation). -/
def pathJoin (dir : PathC) (name : Chars) : PathC :=
  let comps := (splitSlash name).filter
    (fun c => !(c.isEmpty || c == ".".data))
  if "/".data.isPrefixOf name then comps else dir ++ comps

/-- `GET /secrets/\x7bname\x7d`: validation, then a read of the joined
path; returns the stripped content or 404.  The second component lists the
filesystem paths accessed. -/
def get_secret (fs : PathC → Option Chars) (dir : PathC) (name : Chars) :
    Except Nat (Chars × Chars) × List PathC :=
  if validate_name name = false then (.error 400, [])
  else
    let p := pathJoin dir name
    match fs p with
    | some content => (.ok (name, Py.pyStrip content), [p])
    | none => (.error 404, [p])

/-- `PUT /secrets/\x7bname\x7d`: validation, then a write of the joined
path (the stripped body plus a newline). -/
def set_secret (dir : PathC) (name : Chars) (body : Chars) :
    Except Nat Chars × List PathC :=
  if validate_name name = false then (.error 400, [])
  else
    let p := pathJoin dir name
    (.ok (Py.pyStrip body ++ "\n".data), [p])

/-- `DELETE /secrets/\x7bname\x7d`: validation, then an existence check and
unlink of the joined path (the same path is touched whether or not it
exists). -/
def delete_secret (dir : PathC) (name : Chars) :
    Except Nat Unit × List PathC :=
  if validate_name name = false then (.error 400, [])
  else
    let p := pathJoin dir name
    (.ok (), [p])

end Secrets

/-!
## Theorems

Helper lemmas first, then per-claim theorems (with their witnesses and
counterexamples).
-/

/-! ### Event bus lemmas -/

namespace EventBus

theorem hasTopic_eq_false_iff (T : String) (t : Table) :
    hasTopic T t = false ↔ ∀ e ∈ t, e.1 ≠ T := by
  simp [hasTopic, List.any_eq_false]

theorem lookupSubs_append_self (T : String) (s : List Subscription)
    (t : Table) (h : hasTopic T t = false) :
    lookupSubs T (t ++ [(T, s)]) = s := by
  induction t with
  | nil => simp [lookupSubs, List.find?]
  | cons e t ih =>
    rw [hasTopic_eq_false_iff] at h
    have h1 : e.1 ≠ T := h e (by simp)
    have h2 : hasTopic T t = false := by
      rw [hasTopic_eq_false_iff]
      exact fun x hx => h x (by simp [hx])
    simpa [lookupSubs, List.find?_cons, h1] using ih h2

theorem updateFirst_append_self (T : String)
    (f : List Subscription → List Subscription) (s : List Subscription)
    (t : Table) (h : hasTopic T t = false) :
    updateFirst T f (t ++ [(T, s)]) = t ++ [(T, f s)] := by
  induction t with
  | nil => simp [updateFirst]
  | cons e t ih =>
    rw [hasTopic_eq_false_iff] at h
    have h1 : e.1 ≠ T := h e (by simp)
    have h2 : hasTopic T t = false := by
      rw [hasTopic_eq_false_iff]
      exact fun x hx => h x (by simp [hx])
    simp [updateFirst, h1, ih h2]

theorem deleteFirst_append_self (T : String) (s : List Subscription)
    (t : Table) (h : hasTopic T t = false) :
    deleteFirst T (t ++ [(T, s)]) = t := by
  induction t with
  | nil => simp [deleteFirst]
  | cons e t ih =>
    rw [hasTopic_eq_false_iff] at h
    have h1 : e.1 ≠ T := h e (by simp)
    have h2 : hasTopic T t = false := by
      rw [hasTopic_eq_false_iff]
      exact fun x hx => h x (by simp [hx])
    simp [deleteFirst, h1, ih h2]

theorem hasTopic_append_self (T : String) (s : List Subscription) (t : Table) :
    hasTopic T (t ++ [(T, s)]) = true := by
  simp [hasTopic, List.any_append]

theorem map_fst_updateFirst (T : String)
    (f : List Subscription → List Subscription) (t : Table) :
    (updateFirst T f t).map Prod.fst = t.map Prod.fst := by
  induction t with
  | nil => simp [updateFirst]
  | cons e t ih =>
    by_cases h : e.1 = T
    · simp [updateFirst, h]
    · simp [updateFirst, h, ih]

theorem hasTopic_updateFirst (T T' : String)
    (f : List Subscription → List Subscription) (t : Table) :
    hasTopic T' (updateFirst T f t) = hasTopic T' t := by
  induction t with
  | nil => simp [updateFirst]
  | cons e t ih =>
    by_cases h : e.1 = T
    · simp [updateFirst, hasTopic, h]
    · have hb : (e.1 == T) = false := by simp [h]
      simp only [hasTopic] at ih
      simp [updateFirst, hasTopic, hb, ih]

theorem lookupSubs_updateFirst (T : String)
    (f : List Subscription → List Subscription) (t : Table)
    (h : hasTopic T t = true) :
    lookupSubs T (updateFirst T f t) = f (lookupSubs T t) := by
  induction t with
  | nil => simp [hasTopic] at h
  | cons e t ih =>
    by_cases h1 : e.1 = T
    · simp [updateFirst, lookupSubs, List.find?_cons, h1]
    · have h2 : hasTopic T t = true := by
        simpa [hasTopic, h1] using h
      simpa [updateFirst, lookupSubs, List.find?_cons, h1] using ih h2

theorem deleteFirst_updateFirst (T : String)
    (f : List Subscription → List Subscription) (t : Table) :
    deleteFirst T (updateFirst T f t) = deleteFirst T t := by
  induction t with
  | nil => simp [updateFirst, deleteFirst]
  | cons e t ih =>
    by_cases h : e.1 = T
    · simp [updateFirst, deleteFirst, h]
    · simp [updateFirst, deleteFirst, h, ih]

theorem mem_deleteFirst (T : String) (e : String × List Subscription)
    (t : Table) : e ∈ deleteFirst T t → e ∈ t := by
  induction t with
  | nil => intro he; simp [deleteFirst] at he
  | cons x t ih =>
    intro he
    by_cases h : x.1 = T
    · simp [deleteFirst, h] at he
      exact List.mem_cons_of_mem x he
    · simp only [List.mem_cons]
      simp [deleteFirst, h, List.mem_cons] at he
      exact he.imp id ih

theorem map_fst_deleteFirst_sublist (T : String) (t : Table) :
    ((deleteFirst T t).map Prod.fst).Sublist (t.map Prod.fst) := by
  induction t with
  | nil => simp [deleteFirst]
  | cons x t ih =>
    by_cases h : x.1 = T
    · simp [deleteFirst, h]
    · simpa [deleteFirst, h] using ih.cons₂ x.1

theorem mem_updateFirst (T : String)
    (f : List Subscription → List Subscription)
    (e : String × List Subscription) (t : Table) :
    e ∈ updateFirst T f t →
    e ∈ t ∨ ∃ v, (e.1, v) ∈ t ∧ e.1 = T ∧ e.2 = f v := by
  induction t with
  | nil => intro he; simp [updateFirst] at he
  | cons x t ih =>
    obtain ⟨a, b⟩ := x
    intro he
    by_cases h : a = T
    · have hb : ((a, b).1 == T) = true := by simp [h]
      simp only [updateFirst, hb, if_true, List.mem_cons] at he
      rcases he with h1 | h1
      · right
        exact ⟨b, by simp [h1, h], by simp [h1, h], by simp [h1]⟩
      · exact Or.inl (List.mem_cons_of_mem _ h1)
    · have hb : ((a, b).1 == T) = false := by simp [h]
      simp only [updateFirst, hb, Bool.false_eq_true, if_false,
        List.mem_cons] at he
      rcases he with h1 | h1
      · exact Or.inl (by simp [h1])
      · rcases ih h1 with h2 | ⟨v, hv, hvT, hve⟩
        · exact Or.inl (List.mem_cons_of_mem _ h2)
        · exact Or.inr ⟨v, List.mem_cons_of_mem _ hv, hvT, hve⟩

theorem lookupSubs_of_mem_nodup (T : String) (v : List Subscription)
    (t : Table) (hn : (t.map Prod.fst).Nodup) (hm : (T, v) ∈ t) :
    lookupSubs T t = v := by
  induction t with
  | nil => simp at hm
  | cons x t ih =>
    rcases List.mem_cons.1 hm with h1 | h1
    · rw [← h1]
      simp [lookupSubs, List.find?_cons]
    · rw [List.map_cons] at hn
      have hnc := List.nodup_cons.1 hn
      have hx : x.1 ≠ T := by
        intro hxT
        apply hnc.1
        rw [hxT]
        exact List.mem_map.2 ⟨(T, v), h1, rfl⟩
      simpa [lookupSubs, List.find?_cons, hx] using ih hnc.2 h1

theorem lookupSubs_entry (T : String) (t : Table)
    (h : hasTopic T t = true) :
    ∃ e ∈ t, e.1 = T ∧ e.2 = lookupSubs T t := by
  have hs : ∃ x ∈ t, (fun e : String × List Subscription => e.1 == T) x := by
    rw [← List.any_eq_true]
    exact h
  have hsome : (t.find? (fun e => e.1 == T)).isSome := by
    rw [List.find?_isSome]
    exact hs
  obtain ⟨e, he⟩ := Option.isSome_iff_exists.1 hsome
  refine ⟨e, List.mem_of_find?_eq_some he, ?_, ?_⟩
  · have := List.find?_some he
    simpa using this
  · simp [lookupSubs, he]

theorem subscribe_of_absent (T U l : String) (t : Table)
    (h : hasTopic T t = false) :
    subscribe T U l t = t ++ [(T, [⟨T, U, l⟩])] := by
  have h1 := lookupSubs_append_self T [] t h
  have h2 := updateFirst_append_self T
    (fun subs => subs ++ [⟨T, U, l⟩]) [] t h
  simp [subscribe, h, h1, h2]

theorem subscribe_of_present_found (T U l : String) (t : Table)
    (h : hasTopic T t = true)
    (hdup : (lookupSubs T t).any (fun s => s.callback_url == U) = true) :
    subscribe T U l t = t := by
  simp [subscribe, h, hdup]

theorem subscribe_of_present_new (T U l : String) (t : Table)
    (h : hasTopic T t = true)
    (hdup : (lookupSubs T t).any (fun s => s.callback_url == U) = false) :
    subscribe T U l t =
      updateFirst T (fun subs => subs ++ [⟨T, U, l⟩]) t := by
  simp [subscribe, h, hdup]

theorem subscribe_idem (T U l1 l2 : String) (t : Table) :
    subscribe T U l2 (subscribe T U l1 t) = subscribe T U l1 t := by
  by_cases hc : hasTopic T t = true
  · by_cases hdup :
      (lookupSubs T t).any (fun s => s.callback_url == U) = true
    · rw [subscribe_of_present_found T U l1 t hc hdup,
        subscribe_of_present_found T U l2 t hc hdup]
    · rw [Bool.not_eq_true] at hdup
      rw [subscribe_of_present_new T U l1 t hc hdup]
      have hcr : hasTopic T
          (updateFirst T (fun subs => subs ++ [⟨T, U, l1⟩]) t) = true := by
        rw [hasTopic_updateFirst]
        exact hc
      have hlr := lookupSubs_updateFirst T
        (fun subs => subs ++ [⟨T, U, l1⟩]) t hc
      have hdupr : (lookupSubs T
          (updateFirst T (fun subs => subs ++ [⟨T, U, l1⟩]) t)).any
          (fun s => s.callback_url == U) = true := by
        rw [hlr]
        simp [List.any_append]
      exact subscribe_of_present_found T U l2 _ hcr hdupr
  · rw [Bool.not_eq_true] at hc
    rw [subscribe_of_absent T U l1 t hc]
    have hcr := hasTopic_append_self T [⟨T, U, l1⟩] t
    have hlr := lookupSubs_append_self T [⟨T, U, l1⟩] t hc
    have hdupr : (lookupSubs T (t ++ [(T, [⟨T, U, l1⟩])])).any
        (fun s => s.callback_url == U) = true := by
      rw [hlr]
      simp
    exact subscribe_of_present_found T U l2 _ hcr hdupr

theorem subscribe_iterate (T U l : String) (t : Table) (n : Nat)
    (hn : 1 ≤ n) :
    (fun x => subscribe T U l x)^[n] t = subscribe T U l t := by
  induction n with
  | zero => exact absurd hn (by omega)
  | succ n ih =>
    cases Nat.eq_zero_or_pos n with
    | inl h0 => subst h0; simp
    | inr hpos =>
      rw [Function.iterate_succ_apply', ih hpos]
      exact subscribe_idem T U l l t

theorem sub_unsub_absent (T U l : String) (t : Table)
    (h : hasTopic T t = false) :
    (unsubscribe T U (subscribe T U l t)).2 = t := by
  rw [subscribe_of_absent T U l t h]
  have hcr := hasTopic_append_self T [⟨T, U, l⟩] t
  have hlr := lookupSubs_append_self T [⟨T, U, l⟩] t h
  have hupd := updateFirst_append_self T
    (fun _ => ([] : List Subscription)) [⟨T, U, l⟩] t h
  have hdel := deleteFirst_append_self T ([] : List Subscription) t h
  simp [unsubscribe, hcr, hlr, hupd, hdel]

theorem WF_nil : WF [] := by
  refine ⟨by simp, by simp, by simp⟩

theorem WF_subscribe (T U l : String) (t : Table) (h : WF t) :
    WF (subscribe T U l t) := by
  obtain ⟨hkeys, hne, hurl⟩ := h
  by_cases hc : hasTopic T t = true
  · by_cases hdup :
      (lookupSubs T t).any (fun s => s.callback_url == U) = true
    · rw [subscribe_of_present_found T U l t hc hdup]
      exact ⟨hkeys, hne, hurl⟩
    · rw [Bool.not_eq_true] at hdup
      rw [subscribe_of_present_new T U l t hc hdup]
      refine ⟨by rw [map_fst_updateFirst]; exact hkeys, ?_, ?_⟩
      · intro e he
        rcases mem_updateFirst T _ e t he with h1 | ⟨v, hv, _, hve⟩
        · exact hne e h1
        · rw [hve]
          simp
      · intro e he
        rcases mem_updateFirst T _ e t he with h1 | ⟨v, hv, hvT, hve⟩
        · exact hurl e h1
        · rw [hve]
          have hvl : lookupSubs T t = v := by
            apply lookupSubs_of_mem_nodup T v t hkeys
            rw [← hvT]
            exact hv
          have hvn : (v.map Subscription.callback_url).Nodup := hurl (e.1, v) hv
          have hUnotin : U ∉ v.map Subscription.callback_url := by
            intro hin
            obtain ⟨s, hs, hsu⟩ := List.mem_map.1 hin
            have := (List.any_eq_false.1 (by rw [hvl] at hdup; exact hdup)) s hs
            simp [hsu] at this
          rw [List.map_append]
          apply List.Nodup.append hvn (by simp)
          intro a ha hb
          simp at hb
          rw [hb] at ha
          exact hUnotin ha
  · rw [Bool.not_eq_true] at hc
    rw [subscribe_of_absent T U l t hc]
    have hTnotin : T ∉ t.map Prod.fst := by
      intro hin
      obtain ⟨e, he, heq⟩ := List.mem_map.1 hin
      exact absurd heq ((hasTopic_eq_false_iff T t).1 hc e he)
    refine ⟨?_, ?_, ?_⟩
    · rw [List.map_append]
      apply List.Nodup.append hkeys (by simp)
      intro a ha hb
      simp at hb
      rw [hb] at ha
      exact hTnotin ha
    · intro e he
      rcases List.mem_append.1 he with h1 | h1
      · exact hne e h1
      · simp at h1
        rw [h1]
        simp
    · intro e he
      rcases List.mem_append.1 he with h1 | h1
      · exact hurl e h1
      · simp at h1
        rw [h1]
        simp

theorem WF_unsubscribe (T U : String) (t : Table) (h : WF t) :
    WF (unsubscribe T U t).2 := by
  obtain ⟨hkeys, hne, hurl⟩ := h
  by_cases hc : hasTopic T t = false
  · simp [unsubscribe, hc]
    exact ⟨hkeys, hne, hurl⟩
  · have hc' : hasTopic T t = true := by
      rwa [← Bool.not_eq_false]
    have hsub : ((lookupSubs T t).filter
        (fun s => !(s.callback_url == U))).Sublist (lookupSubs T t) :=
      List.filter_sublist _
    have hurl0 : ((lookupSubs T t).map Subscription.callback_url).Nodup := by
      obtain ⟨e, he, _, he2⟩ := lookupSubs_entry T t hc'
      rw [← he2]
      exact hurl e he
    by_cases hni : ((lookupSubs T t).filter
        (fun s => !(s.callback_url == U))).isEmpty = true
    · have hres : (unsubscribe T U t).2 = deleteFirst T t := by
        simp [unsubscribe, hc, hni, deleteFirst_updateFirst]
      rw [hres]
      refine ⟨(map_fst_deleteFirst_sublist T t).nodup hkeys, ?_, ?_⟩
      · exact fun e he => hne e (mem_deleteFirst T e t he)
      · exact fun e he => hurl e (mem_deleteFirst T e t he)
    · have hres : (unsubscribe T U t).2 =
          updateFirst T (fun _ => (lookupSubs T t).filter
            (fun s => !(s.callback_url == U))) t := by
        simp [unsubscribe, hc, hni]
      rw [hres]
      refine ⟨by rw [map_fst_updateFirst]; exact hkeys, ?_, ?_⟩
      · intro e he
        rcases mem_updateFirst T _ e t he with h1 | ⟨v, hv, _, hve⟩
        · exact hne e h1
        · rw [hve]
          intro hnil
          rw [hnil] at hni
          simp at hni
      · intro e he
        rcases mem_updateFirst T _ e t he with h1 | ⟨v, hv, _, hve⟩
        · exact hurl e h1
        · rw [hve]
          exact (hsub.map Subscription.callback_url).nodup hurl0

theorem WF_applyOp (t : Table) (op : Op) (h : WF t) : WF (applyOp t op) := by
  cases op with
  | sub T u lbl => exact WF_subscribe T u lbl t h
  | unsub T u => exact WF_unsubscribe T u t h

theorem WF_foldl (ops : List Op) :
    ∀ t : Table, WF t → WF (ops.foldl applyOp t) := by
  induction ops with
  | nil => intro t h; simpa using h
  | cons op ops ih =>
    intro t h
    simpa using ih (applyOp t op) (WF_applyOp t op h)

end EventBus

/-- C8: on the event bus, `subscribe` is idempotent on the pair
`(topic, callback_url)` — repeating it yields the table of doing it once —
and from a state in which the topic has no subscribers, one or more
subscribes followed by one unsubscribe leave the topic absent from
`list_topics()`. -/
theorem C8_subscribe_idempotent_unsubscribe_clears :
    (∀ (t : EventBus.Table) (T U l1 l2 : String),
      EventBus.subscribe T U l2 (EventBus.subscribe T U l1 t) =
        EventBus.subscribe T U l1 t) ∧
    (∀ (t : EventBus.Table) (T U l : String) (n : Nat),
      EventBus.hasTopic T t = false → 1 ≤ n →
      ∀ e ∈ EventBus.list_topics
        (EventBus.unsubscribe T U
          ((fun x => EventBus.subscribe T U l x)^[n] t)).2, e.1 ≠ T) := by
  constructor
  · exact fun t T U l1 l2 => EventBus.subscribe_idem T U l1 l2 t
  · intro t T U l n h hn e he
    rw [EventBus.subscribe_iterate T U l t n hn,
      EventBus.sub_unsub_absent T U l t h] at he
    obtain ⟨x, hx, hxe⟩ := List.mem_map.1 he
    rw [← hxe]
    exact (EventBus.hasTopic_eq_false_iff T t).1 h x hx

/-- Witness for C8 at a concrete bus state: topic `build`, callback
`http://cb`, empty starting table, one subscribe then one unsubscribe. -/
theorem C8_subscribe_idempotent_unsubscribe_clears_witness :
    EventBus.hasTopic "build" ([] : EventBus.Table) = false ∧
    (∀ e ∈ EventBus.list_topics
      (EventBus.unsubscribe "build" "http://cb"
        ((fun x => EventBus.subscribe "build" "http://cb" "svc" x)^[1]
          ([] : EventBus.Table))).2, e.1 ≠ "build") :=
  ⟨rfl, C8_subscribe_idempotent_unsubscribe_clears.2 [] "build" "http://cb"
    "svc" 1 rfl (le_refl 1)⟩

/-- C10: starting from the empty event bus, any sequence of subscribe and
unsubscribe operations leaves a table in which every present topic has a
non-empty subscriber list and no two subscriptions under the same topic
share a callback URL. -/
theorem C10_bus_table_invariant (ops : List EventBus.Op) :
    (∀ e ∈ EventBus.applyOps ops, e.2 ≠ []) ∧
    (∀ e ∈ EventBus.applyOps ops,
      (e.2.map EventBus.Subscription.callback_url).Nodup) := by
  have h := EventBus.WF_foldl ops [] EventBus.WF_nil
  exact ⟨h.2.1, h.2.2⟩

/-! ### SSE broadcast lemmas -/

namespace Stream

theorem removeDead_cons_of_ne (dead : List Queue) (x : Queue)
    (l : List Queue) (h : ∀ d ∈ dead, d.qid ≠ x.qid) :
    removeDead dead (x :: l) = x :: removeDead dead l := by
  induction dead generalizing l with
  | nil => simp [removeDead]
  | cons d ds ih =>
    have hdx : (x.qid == d.qid) = false := by
      simp
      exact fun he => (h d (by simp)) he.symm
    have hstep : removeFirst (fun q => q.qid == d.qid) (x :: l) =
        x :: removeFirst (fun q => q.qid == d.qid) l := by
      simp [removeFirst, hdx]
    simp only [removeDead, List.foldl_cons] at ih ⊢
    rw [hstep]
    exact ih _ (fun d' hd' => h d' (by simp [hd']))

theorem broadcast_eq_filterMap (et dj : String) (subs : List Queue)
    (h : (subs.map Queue.qid).Nodup) :
    broadcast et dj subs = subs.filterMap (fun q =>
      if q.items.length < maxsize then
        some { q with items := q.items ++ [formatFrame et dj] }
      else none) := by
  induction subs with
  | nil => simp [broadcast, removeDead, deadOf, enqueueAll]
  | cons q rest ih =>
    rw [List.map_cons, List.nodup_cons] at h
    have hq := h.1
    have ih2 := ih h.2
    by_cases hfull : q.items.length < maxsize
    · have hdead : deadOf (q :: rest) = deadOf rest := by
        simp [deadOf, hfull]
      have henq : enqueueAll (formatFrame et dj) (q :: rest) =
          { q with items := q.items ++ [formatFrame et dj] } ::
            enqueueAll (formatFrame et dj) rest := by
        simp [enqueueAll, hfull]
      have hne : ∀ d ∈ deadOf rest,
          d.qid ≠ ({ q with items := q.items ++ [formatFrame et dj] } : Queue).qid := by
        intro d hd
        have : d ∈ rest := List.mem_of_mem_filter hd
        intro he
        exact hq (he ▸ List.mem_map.2 ⟨d, this, rfl⟩)
      simp only [broadcast] at ih2 ⊢
      rw [hdead, henq, removeDead_cons_of_ne _ _ _ hne, ih2]
      simp [hfull]
    · have hdead : deadOf (q :: rest) = q :: deadOf rest := by
        simp [deadOf, hfull]
      have henq : enqueueAll (formatFrame et dj) (q :: rest) =
          q :: enqueueAll (formatFrame et dj) rest := by
        simp [enqueueAll, hfull]
      simp only [broadcast] at ih2 ⊢
      rw [hdead, henq]
      simp only [removeDead, List.foldl_cons]
      have hhead : removeFirst (fun x => x.qid == q.qid)
          (q :: enqueueAll (formatFrame et dj) rest) =
            enqueueAll (formatFrame et dj) rest := by
        simp [removeFirst]
      rw [hhead]
      simp only [removeDead] at ih2
      rw [ih2]
      simp [hfull]

theorem qid_injective (subs : List Queue)
    (h : (subs.map Queue.qid).Nodup) :
    ∀ a ∈ subs, ∀ b ∈ subs, a.qid = b.qid → a = b := by
  intro a ha b hb heq
  exact List.inj_on_of_nodup_map h ha hb heq

end Stream

/-- C7: `broadcast(event, data)` over any set of connected SSE subscriber
queues (distinct clients, each bounded at capacity 64) enqueues the
formatted frame on every queue with free capacity, removes from the
subscriber list every queue that is full at that moment, and — being a
pure function built from non-blocking `put_nowait` steps — never leaves
any queue beyond its capacity. -/
theorem C7_broadcast_drops_full_queues (subs : List Stream.Queue)
    (et dj : String) (h : (subs.map Stream.Queue.qid).Nodup) :
    (∀ q ∈ subs, q.items.length < Stream.maxsize →
      (⟨q.qid, q.items ++ [Stream.formatFrame et dj]⟩ : Stream.Queue) ∈
        Stream.broadcast et dj subs) ∧
    (∀ q ∈ subs, Stream.maxsize ≤ q.items.length →
      ∀ q' ∈ Stream.broadcast et dj subs, q'.qid ≠ q.qid) ∧
    ((∀ q ∈ subs, q.items.length ≤ Stream.maxsize) →
      ∀ q' ∈ Stream.broadcast et dj subs,
        q'.items.length ≤ Stream.maxsize) := by
  rw [Stream.broadcast_eq_filterMap et dj subs h]
  refine ⟨?_, ?_, ?_⟩
  · intro q hq hlt
    refine List.mem_filterMap.2 ⟨q, hq, ?_⟩
    simp [hlt]
  · intro q hq hfull q' hq' heq
    obtain ⟨a, ha, hsome⟩ := List.mem_filterMap.1 hq'
    by_cases hlt : a.items.length < Stream.maxsize
    · rw [if_pos hlt] at hsome
      have hq'a : q'.qid = a.qid := by
        rw [← Option.some_inj.1 hsome]
      have : a = q := Stream.qid_injective subs h a ha q hq (by
        rw [← hq'a, heq])
      rw [this] at hlt
      omega
    · rw [if_neg hlt] at hsome
      exact Option.noConfusion hsome
  · intro hb q' hq'
    obtain ⟨a, ha, hsome⟩ := List.mem_filterMap.1 hq'
    by_cases hlt : a.items.length < Stream.maxsize
    · rw [if_pos hlt] at hsome
      rw [← Option.some_inj.1 hsome]
      simp
      omega
    · rw [if_neg hlt] at hsome
      exact Option.noConfusion hsome

/-- Witness for C7: two clients, one with room (id 0) and one full
(id 1, 64 queued frames); the frame reaches client 0 and client 1 is
dropped. -/
theorem C7_broadcast_drops_full_queues_witness :
    ((⟨0, [Stream.formatFrame "health" "d"]⟩ : Stream.Queue) ∈
      Stream.broadcast "health" "d"
        [⟨0, []⟩, ⟨1, List.replicate 64 "x"⟩]) ∧
    (∀ q' ∈ Stream.broadcast "health" "d"
        [⟨0, []⟩, ⟨1, List.replicate 64 "x"⟩], q'.qid ≠ 1) := by
  have h := C7_broadcast_drops_full_queues
    [⟨0, []⟩, ⟨1, List.replicate 64 "x"⟩] "health" "d" (by decide)
  refine ⟨?_, ?_⟩
  · simpa using h.1 ⟨0, []⟩ (by simp) (by simp [Stream.maxsize])
  · intro q' hq'
    exact h.2.1 ⟨1, List.replicate 64 "x"⟩ (by simp)
      (by simp [Stream.maxsize]) q' hq'

/-! ### Mesh payload key lemmas -/

theorem objHasKey_append (k : String) (a b : List (String × Jval)) :
    objHasKey k (a ++ b) = (objHasKey k a || objHasKey k b) := by
  induction a with
  | nil => simp [objHasKey]
  | cons e rest ih => simp [objHasKey, ih, Bool.or_assoc]

namespace Mqtt

theorem objHasKey_strField (k key : String) (v : Option String)
    (hk : (key == k) = false) : objHasKey k (strField key v) = false := by
  cases v with
  | none => simp [strField, objHasKey]
  | some s =>
    by_cases hs : s = ""
    · simp [strField, hs, objHasKey]
    · simp [strField, hs, objHasKey, jsonHasKey, hk]

theorem objHasKey_portField (k : String) (p : Option Int)
    (hk : (("port" : String) == k) = false) :
    objHasKey k (match p with
      | some v => [("port", Jval.num v)]
      | none => []) = false := by
  cases p <;> simp [objHasKey, jsonHasKey, hk]

theorem objHasKey_managedField (k : String) (b : Bool)
    (hk : (("managed" : String) == k) = false) :
    objHasKey k (if b then [("managed", Jval.bool true)] else []) = false := by
  cases b <;> simp [objHasKey, jsonHasKey, hk]

theorem entryJson_hasKey_false (k : String) (comp : DeployedComponent)
    (h1 : (("runner" : String) == k) = false)
    (h2 : (("category" : String) == k) = false)
    (h3 : (("description" : String) == k) = false)
    (h4 : (("port" : String) == k) = false)
    (h5 : (("health_path" : String) == k) = false)
    (h6 : (("proxy_path" : String) == k) = false)
    (h7 : (("schedule" : String) == k) = false)
    (h8 : (("managed" : String) == k) = false) :
    jsonHasKey k (entryJson comp) = false := by
  simp only [entryJson, jsonHasKey, objHasKey_append,
    objHasKey_strField k "description" comp.description h3,
    objHasKey_strField k "health_path" comp.health_path h5,
    objHasKey_strField k "proxy_path" comp.proxy_path h6,
    objHasKey_strField k "schedule" comp.schedule h7,
    objHasKey_portField k comp.port h4,
    objHasKey_managedField k comp.managed h8]
  simp [objHasKey, jsonHasKey, h1, h2]

theorem objHasKey_deployed (k : String)
    (l : List (String × DeployedComponent))
    (hname : ∀ e ∈ l, (e.1 == k) = false)
    (h1 : (("runner" : String) == k) = false)
    (h2 : (("category" : String) == k) = false)
    (h3 : (("description" : String) == k) = false)
    (h4 : (("port" : String) == k) = false)
    (h5 : (("health_path" : String) == k) = false)
    (h6 : (("proxy_path" : String) == k) = false)
    (h7 : (("schedule" : String) == k) = false)
    (h8 : (("managed" : String) == k) = false) :
    objHasKey k (l.map (fun e => (e.1, entryJson e.2))) = false := by
  induction l with
  | nil => simp [objHasKey]
  | cons e rest ih =>
    have hek : (e.1 == k) = false := hname e (List.mem_cons_self e rest)
    have hrest : ∀ x ∈ rest, (x.1 == k) = false :=
      fun x hx => hname x (List.mem_cons_of_mem e hx)
    simp [objHasKey, hek,
      entryJson_hasKey_false k e.2 h1 h2 h3 h4 h5 h6 h7 h8, ih hrest]

theorem registry_json_no_key (k : String) (r : NodeRegistry)
    (hname : ∀ e ∈ r.deployed, (e.1 == k) = false)
    (hn1 : (("node" : String) == k) = false)
    (hn2 : (("deployed" : String) == k) = false)
    (hn3 : (("hostname" : String) == k) = false)
    (hn4 : (("gateway_port" : String) == k) = false)
    (h1 : (("runner" : String) == k) = false)
    (h2 : (("category" : String) == k) = false)
    (h3 : (("description" : String) == k) = false)
    (h4 : (("port" : String) == k) = false)
    (h5 : (("health_path" : String) == k) = false)
    (h6 : (("proxy_path" : String) == k) = false)
    (h7 : (("schedule" : String) == k) = false)
    (h8 : (("managed" : String) == k) = false) :
    jsonHasKey k (registry_to_json r) = false := by
  have hdep := objHasKey_deployed k r.deployed hname h1 h2 h3 h4 h5 h6 h7 h8
  simp [registry_to_json, jsonHasKey, objHasKey, hn1, hn2, hn3, hn4, hdep]

end Mqtt

/-- C1 counterexample: a deployed component may legitimately be named
`env` (the name matches the catalog id grammar); serializing such a
registry puts the key `env` into the payload, at the nesting level of the
`deployed` map. -/
theorem C1_counterexample :
    jsonHasKey "env"
      (Mqtt.registry_to_json
        ⟨⟨"host1", none, 9000⟩, [("env", { runner := "command" })]⟩) =
      true := by
  decide

/-- C1 (amended): for every registry none of whose component names is
itself one of `env`, `run_cmd`, `castle_root`, the mesh payload built by
`_registry_to_json` contains none of those keys at any nesting level; in
particular the node object and every deployed entry object never carry
them. -/
theorem C1_mesh_payload_omits_secret_keys (r : Mqtt.NodeRegistry)
    (h : ∀ e ∈ r.deployed,
      e.1 ∉ (["env", "run_cmd", "castle_root"] : List String)) :
    ∀ k ∈ (["env", "run_cmd", "castle_root"] : List String),
      jsonHasKey k (Mqtt.registry_to_json r) = false := by
  intro k hk
  have hname : ∀ e ∈ r.deployed, (e.1 == k) = false := by
    intro e he
    have hne := h e he
    rw [beq_eq_false_iff_ne]
    intro heq
    rw [heq] at hne
    exact hne hk
  simp only [List.mem_cons, List.not_mem_nil, or_false] at hk
  rcases hk with hk | hk | hk <;> subst hk <;>
    exact Mqtt.registry_json_no_key _ r hname (by decide) (by decide)
      (by decide) (by decide) (by decide) (by decide) (by decide) (by decide)
      (by decide) (by decide) (by decide) (by decide)

/-- Witness for C1 at a registry with one conventionally-named component. -/
theorem C1_mesh_payload_omits_secret_keys_witness :
    jsonHasKey "env"
      (Mqtt.registry_to_json
        ⟨⟨"host1", none, 9000⟩,
         [("api", { runner := "python", port := some 9001 })]⟩) = false :=
  C1_mesh_payload_omits_secret_keys
    ⟨⟨"host1", none, 9000⟩,
     [("api", { runner := "python", port := some 9001 })]⟩
    (by decide) "env" (by decide)

/-- C3 counterexample: at a concrete registry and path, the trace of
`save_registry` holds no rename and no fsync, and its only write goes
directly to the final registry path — there is no write-temp/fsync/rename
step for a concurrent reader to be protected by. -/
theorem C3_counterexample :
    (Reg.save_registry (fun _ => "serialized")
        ⟨⟨"host1", none, 9000⟩, []⟩ ["home", ".castle", "registry.yaml"]).all
        (fun op => ! op.isRename && ! op.isFsync) = true ∧
    (Reg.save_registry (fun _ => "serialized")
        ⟨⟨"host1", none, 9000⟩, []⟩
        ["home", ".castle", "registry.yaml"]).filterMap Reg.FsOp.writeTarget =
      [["home", ".castle", "registry.yaml"]] := by
  exact ⟨rfl, rfl⟩

/-- C3 (amended): `save_registry` creates the parent directory and then
writes the serialized registry directly to the final path in a single
write; its trace holds no temporary-file write, no fsync and no rename, so
the save is not atomic and a concurrent reader is not protected against
observing a partial file. -/
theorem C3_save_registry_writes_directly (dump : Jval → String)
    (r : Reg.NodeRegistry) (path : Reg.PathT) :
    Reg.save_registry dump r path =
      [Reg.FsOp.mkdirParents path.dropLast,
       Reg.FsOp.write path (dump (Reg.registryData r))] ∧
    ∀ op ∈ Reg.save_registry dump r path,
      op.isRename = false ∧ op.isFsync = false := by
  refine ⟨rfl, ?_⟩
  intro op hop
  simp [Reg.save_registry] at hop
  rcases hop with h | h <;> subst h <;> exact ⟨rfl, rfl⟩

/-- The container runtime the claim describes, in the claim's own words:
`which("podman" or "docker") or "docker"`, i.e. podman preferred over
docker with a literal `docker` fallback.  Stated only for comparison with
`Deploy.containerRuntime`, which the code computes. -/
def claimContainerRuntime (which : String → Option String) : String :=
  Deploy.orTruthy (which "podman") (Deploy.orTruthy (which "docker") "docker")

/-- C5 counterexample: when both runtimes are on PATH, `_build_run_cmd`
starts the compiled command with docker, not with the podman the claim
promises. -/
theorem C5_counterexample :
    Deploy.buildRunCmd (fun s => some ("/usr/bin/" ++ s))
        { runner := "container", image := "nginx" } [] =
      .ok ["/usr/bin/docker", "run", "--rm", "--name=castle-nginx",
           "nginx"] ∧
    claimContainerRuntime (fun s => some ("/usr/bin/" ++ s)) =
      "/usr/bin/podman" ∧
    ("/usr/bin/docker" : String) ≠ "/usr/bin/podman" := by
  refine ⟨rfl, rfl, by decide⟩

/-- C5 (amended): for every `runner=container` spec the compiled command is
the runtime found by PATH lookup preferring docker over podman (literal
`docker` fallback), then `run`, `--rm`, `--name=castle-<image-basename>`,
the `-p` port mappings, `-v` volumes, `-e` entries of the container-scope
env followed by the merged process env, the optional `-w` workdir, the
image, the optional command, and the args, in that order. -/
theorem C5_container_run_cmd_shape (which : String → Option String)
    (run : Deploy.RunSpec) (env : List (String × String))
    (h : run.runner = "container") :
    Deploy.buildRunCmd which run env =
      .ok ([Deploy.containerRuntime which, "run", "--rm",
            "--name=castle-" ++ Deploy.imageBase run.image]
        ++ (run.ports.map
            (fun p => ["-p", Nat.repr p.2 ++ ":" ++ Nat.repr p.1])).flatten
        ++ (run.volumes.map (fun v => ["-v", v])).flatten
        ++ (run.env.map (fun e => ["-e", e.1 ++ "=" ++ e.2])).flatten
        ++ (env.map (fun e => ["-e", e.1 ++ "=" ++ e.2])).flatten
        ++ (match run.workdir with
            | some w => if w = "" then [] else ["-w", w]
            | none => [])
        ++ [run.image]
        ++ (match run.command with | some cs => cs | none => [])
        ++ run.args) ∧
    Deploy.containerRuntime which =
      Deploy.orTruthy (which "docker")
        (Deploy.orTruthy (which "podman") "docker") := by
  refine ⟨?_, rfl⟩
  simp only [Deploy.buildRunCmd, h]

/-- Witness for C5 with podman alone on PATH and every option populated. -/
theorem C5_container_run_cmd_shape_witness :
    ({ runner := "container", image := "reg.io/app:2",
       ports := [(80, 8080)], volumes := ["v1:/d"], env := [("A", "1")],
       workdir := some "/w", command := some ["serve"],
       args := ["--x"] } : Deploy.RunSpec).runner = "container" ∧
    Deploy.buildRunCmd
      (fun s => if s = "podman" then some "/bin/podman" else none)
      { runner := "container", image := "reg.io/app:2",
        ports := [(80, 8080)], volumes := ["v1:/d"], env := [("A", "1")],
        workdir := some "/w", command := some ["serve"], args := ["--x"] }
      [("B", "2")] =
      .ok ["/bin/podman", "run", "--rm", "--name=castle-app",
           "-p", "8080:80", "-v", "v1:/d", "-e", "A=1", "-e", "B=2",
           "-w", "/w", "reg.io/app:2", "serve", "--x"] := by
  refine ⟨rfl, ?_⟩
  rw [(C5_container_run_cmd_shape
    (fun s => if s = "podman" then some "/bin/podman" else none)
    { runner := "container", image := "reg.io/app:2",
      ports := [(80, 8080)], volumes := ["v1:/d"], env := [("A", "1")],
      workdir := some "/w", command := some ["serve"], args := ["--x"] }
    [("B", "2")] rfl).1]
  rfl

/-! ### Prefix lemmas for line-oriented unit files -/

theorem not_prefix_append_long (p a t : Chars) (hlen : p.length ≤ a.length)
    (h : ¬ p <+: a) : ¬ p <+: a ++ t := by
  intro hp
  apply h
  have h1 : p = (a ++ t).take p.length := List.prefix_iff_eq_take.1 hp
  have h2 : (a ++ t).take p.length = a.take p.length := by
    rw [List.take_append_eq_append_take, Nat.sub_eq_zero_of_le hlen]
    simp
  rw [List.prefix_iff_eq_take]
  exact h1.trans h2

theorem not_prefix_append_short (p a t : Chars) (hlen : a.length ≤ p.length)
    (h : ¬ a <+: p) : ¬ p <+: a ++ t := by
  intro hp
  exact h (List.prefix_of_prefix_length_le (List.prefix_append a t) hp hlen)

/-- C4: no line of the systemd unit generated from a deployed component is
a `WorkingDirectory` directive — the unit refers only to the resolved
values carried by the registry record and the sideband systemd options,
with no working-directory reference into the source tree. -/
theorem C4_unit_has_no_working_directory (name : Chars)
    (d : Sysd.DeployedView) (sd : Option Sysd.SystemdSpec) (home : Chars) :
    ∀ line ∈ Sysd.generateUnitLines name d sd home,
      ¬ "WorkingDirectory".data <+: line := by
  intro line hline
  simp only [Sysd.generateUnitLines] at hline
  rcases List.mem_append.1 hline with h1 | hD
  · rcases List.mem_append.1 h1 with h2 | hC
    · rcases List.mem_append.1 h2 with h3 | hB
      · rcases List.mem_append.1 h3 with h4 | hP
        · rcases List.mem_append.1 h4 with hA | hE
          · simp only [List.mem_cons, List.not_mem_nil, or_false] at hA
            rcases hA with rfl | rfl | rfl | rfl | rfl | rfl | rfl
            · decide
            · exact not_prefix_append_long _ _ _ (by decide) (by decide)
            · exact not_prefix_append_short _ _ _ (by decide) (by decide)
            · decide
            · decide
            · exact not_prefix_append_short _ _ _ (by decide) (by decide)
            · exact not_prefix_append_short _ _ _ (by decide) (by decide)
          · obtain ⟨e, _, rfl⟩ := List.mem_map.1 hE
            simp only [Sysd.envLine]
            exact not_prefix_append_short _ _ _ (by decide) (by decide)
        · simp only [List.mem_cons, List.not_mem_nil, or_false] at hP
          subst hP
          simp only [Sysd.pathLine]
          exact not_prefix_append_long _ _ _ (by decide) (by decide)
      · split at hB
        · simp at hB
        · simp only [List.mem_cons, List.not_mem_nil, or_false] at hB
          rcases hB with rfl | rfl | rfl
          · exact not_prefix_append_short _ _ _ (by decide) (by decide)
          · exact not_prefix_append_short _ _ _ (by decide) (by decide)
          · decide
    · split at hC
      · rcases List.mem_append.1 hC with hR | hN
        · split at hR
          · simp only [List.mem_cons, List.not_mem_nil, or_false] at hR
            subst hR
            exact not_prefix_append_short _ _ _ (by decide) (by decide)
          · simp at hR
        · split at hN
          · simp only [List.mem_cons, List.not_mem_nil, or_false] at hN
            subst hN
            decide
          · simp at hN
      · simp at hC
  · simp only [List.mem_cons, List.not_mem_nil, or_false] at hD
    rcases hD with rfl | rfl | rfl
    · decide
    · decide
    · exact not_prefix_append_short _ _ _ (by decide) (by decide)

/-- Witness for C4 at a default deployed component: the unit's first line
is a member and is no `WorkingDirectory` directive. -/
theorem C4_unit_has_no_working_directory_witness :
    ("[Unit]".data ∈
      Sysd.generateUnitLines "svc".data {} none "/home/u".data) ∧
    ¬ "WorkingDirectory".data <+: "[Unit]".data :=
  ⟨by decide,
   C4_unit_has_no_working_directory "svc".data {} none "/home/u".data
     "[Unit]".data (by decide)⟩

/-! ### Secret substitution lemmas -/

namespace Config

theorem subst_nil (fs : Chars → Option Chars) : subst fs [] = [] := by
  simp [subst]

theorem isPrefixOf_append_self (l t : Chars) :
    l.isPrefixOf (l ++ t) = true := by
  induction l with
  | nil => simp [List.isPrefixOf]
  | cons c cs ih => simp [List.isPrefixOf, ih]

theorem findBrace_append (xs b : Chars) (h : '\x7d' ∉ xs) :
    findBrace (xs ++ '\x7d' :: b) =
      some (xs, ⟨b, by simp; omega⟩) := by
  induction xs with
  | nil => simp [findBrace]
  | cons c cs ih =>
    have hc : c ≠ '\x7d' := fun he => h (he ▸ List.mem_cons_self c cs)
    have htail : '\x7d' ∉ cs := fun hm => h (List.mem_cons_of_mem c hm)
    simp [findBrace, hc, ih htail]

theorem subst_cons_ne (fs : Chars → Option Chars) (c : Char) (l : Chars)
    (hc : c ≠ '$') : subst fs (c :: l) = c :: subst fs l := by
  rw [subst.eq_def]
  split
  · simp_all
  · simp_all
  · rename_i heq
    injection heq with h1 h2
    rw [h1, h2]

theorem subst_dollar_brace (fs : Chars → Option Chars) (ref b : Chars)
    (href : ref ≠ []) (hnb : '\x7d' ∉ ref) :
    subst fs ('$' :: '\x7b' :: (ref ++ '\x7d' :: b)) =
      (if "secret:".data.isPrefixOf ref then readSecret fs (ref.drop 7)
       else '$' :: '\x7b' :: (ref ++ ['\x7d'])) ++ subst fs b := by
  have hne : ref.isEmpty = false := by
    cases ref
    · exact absurd rfl href
    · rfl
  rw [subst.eq_def]
  simp [findBrace_append ref b hnb, hne]

/-- One `${secret:NAME}` occurrence, preceded by a dollar-free prefix, is
substituted via `readSecret` and scanning continues after it. -/
theorem subst_occurrence (fs : Chars → Option Chars) (a name b : Chars)
    (ha : '$' ∉ a) (hnb : '\x7d' ∉ name) :
    subst fs (a ++ '$' :: '\x7b' :: ("secret:".data ++ name ++ '\x7d' :: b)) =
      a ++ readSecret fs name ++ subst fs b := by
  induction a with
  | nil =>
    simp only [List.nil_append]
    have hrne : "secret:".data ++ name ≠ [] := by simp
    have hrnb : '\x7d' ∉ "secret:".data ++ name := by
      intro hm
      rcases List.mem_append.1 hm with h | h
      · revert h; decide
      · exact hnb h
    have hstep := subst_dollar_brace fs ("secret:".data ++ name) b hrne hrnb
    have h7 : ("secret:".data).length = 7 := rfl
    have hdrop := List.drop_left "secret:".data name
    rw [h7] at hdrop
    rw [hstep]
    simp [isPrefixOf_append_self, hdrop]
  | cons c a2 ih =>
    have hc : c ≠ '$' := fun he => ha (he ▸ List.mem_cons_self c a2)
    have ha2 : '$' ∉ a2 := fun hm => ha (List.mem_cons_of_mem c hm)
    rw [List.cons_append, subst_cons_ne fs c _ hc, ih ha2]
    simp

end Config

/-- C2: resolving an environment map substitutes each `${secret:NAME}`
occurrence textually: by the stripped content of the secret file when it
exists, and by the literal `<MISSING_SECRET:NAME>` placeholder when it does
not.  The resolver is a total function of the secrets map — no branch can
raise.  (The occurrence is written out character-wise: the value is
`a ++ "$\x7bsecret:" ++ name ++ "\x7d" ++ b` with `a` dollar-free and
`name` a non-empty brace-free reference.) -/
theorem C2_resolve_env_vars_substitutes_secrets (fs : Chars → Option Chars)
    (env : List (Chars × Chars)) (k a name b : Chars)
    (hmem : (k, a ++ '$' :: '\x7b' ::
      ("secret:".data ++ name ++ '\x7d' :: b)) ∈ env)
    (ha : '$' ∉ a) (hnb : '\x7d' ∉ name) :
    (∀ content, fs name = some content →
      (k, a ++ Py.pyStrip content ++ Config.subst fs b) ∈
        Config.resolve_env_vars fs env) ∧
    (fs name = none →
      (k, a ++ ("<MISSING_SECRET:".data ++ name ++ ">".data) ++
        Config.subst fs b) ∈ Config.resolve_env_vars fs env) := by
  constructor
  · intro content hc
    have h := Config.subst_occurrence fs a name b ha hnb
    simp only [Config.readSecret, hc] at h
    exact List.mem_map.2 ⟨_, hmem, by rw [h]⟩
  · intro hc
    have h := Config.subst_occurrence fs a name b ha hnb
    simp only [Config.readSecret, hc] at h
    exact List.mem_map.2 ⟨_, hmem, by rw [h]⟩

/-- Witness for C2: `API_KEY` holds `" xyz\n"` (resolved to the trimmed
`xyz`), `NOPE` has no file (resolved to the placeholder). -/
theorem C2_resolve_env_vars_substitutes_secrets_witness :
    (("K".data, "xyz".data) ∈ Config.resolve_env_vars
      (fun n => if n = "API_KEY".data then some " xyz\n".data else none)
      [("K".data, "$\x7bsecret:API_KEY\x7d".data),
       ("Z".data, "$\x7bsecret:NOPE\x7d".data)]) ∧
    (("Z".data, "<MISSING_SECRET:NOPE>".data) ∈ Config.resolve_env_vars
      (fun n => if n = "API_KEY".data then some " xyz\n".data else none)
      [("K".data, "$\x7bsecret:API_KEY\x7d".data),
       ("Z".data, "$\x7bsecret:NOPE\x7d".data)]) := by
  constructor
  · have h := (C2_resolve_env_vars_substitutes_secrets
      (fun n => if n = "API_KEY".data then some " xyz\n".data else none)
      [("K".data, "$\x7bsecret:API_KEY\x7d".data),
       ("Z".data, "$\x7bsecret:NOPE\x7d".data)]
      "K".data [] "API_KEY".data [] (by decide) (by decide)
      (by decide)).1 " xyz\n".data (by decide)
    rw [Config.subst_nil] at h
    have he : ([] : Chars) ++ Py.pyStrip " xyz\n".data ++ [] = "xyz".data := by
      decide
    rw [he] at h
    exact h
  · have h := (C2_resolve_env_vars_substitutes_secrets
      (fun n => if n = "API_KEY".data then some " xyz\n".data else none)
      [("K".data, "$\x7bsecret:API_KEY\x7d".data),
       ("Z".data, "$\x7bsecret:NOPE\x7d".data)]
      "Z".data [] "NOPE".data [] (by decide) (by decide)
      (by decide)).2 (by decide)
    rw [Config.subst_nil] at h
    have he : ([] : Chars) ++
        ("<MISSING_SECRET:".data ++ "NOPE".data ++ ">".data) ++ [] =
        "<MISSING_SECRET:NOPE>".data := by decide
    rw [he] at h
    exact h

/-! ### Cron and timer lemmas -/

namespace Cron

theorem isDigit_not_space (c : Char) (hc : c.isDigit = true) :
    Py.pyIsSpace c = false := by
  have h1 : c ≠ ' ' := fun he => by rw [he] at hc; exact absurd hc (by decide)
  have h2 : c ≠ '\t' := fun he => by rw [he] at hc; exact absurd hc (by decide)
  have h3 : c ≠ '\n' := fun he => by rw [he] at hc; exact absurd hc (by decide)
  have h4 : c ≠ '\r' := fun he => by rw [he] at hc; exact absurd hc (by decide)
  have h5 : c ≠ '\x0b' :=
    fun he => by rw [he] at hc; exact absurd hc (by decide)
  have h6 : c ≠ '\x0c' :=
    fun he => by rw [he] at hc; exact absurd hc (by decide)
  simp [Py.pyIsSpace, h1, h2, h3, h4, h5, h6]

theorem dropWhile_eq_self_of_all (p : Char → Bool) (l : Chars)
    (h : ∀ c ∈ l, p c = false) : l.dropWhile p = l := by
  cases l with
  | nil => rfl
  | cons c cs => simp [List.dropWhile_cons, h c (List.mem_cons_self c cs)]

theorem pyStrip_digits (n : Chars) (h : n.all Char.isDigit = true) :
    Py.pyStrip n = n := by
  have hns : ∀ c ∈ n, Py.pyIsSpace c = false := by
    intro c hc
    exact isDigit_not_space c (List.all_eq_true.1 h c hc)
  have h1 : n.dropWhile Py.pyIsSpace = n := dropWhile_eq_self_of_all _ n hns
  have h2 : n.reverse.dropWhile Py.pyIsSpace = n.reverse :=
    dropWhile_eq_self_of_all _ n.reverse
      (fun c hc => hns c (List.mem_reverse.1 hc))
  simp [Py.pyStrip, h1, h2]

theorem pyIntParse_digits (n : Chars) (hne : n ≠ [])
    (h : n.all Char.isDigit = true) :
    Py.pyIntParse n = some (Int.ofNat (Py.natVal n)) := by
  have hstrip := pyStrip_digits n h
  cases n with
  | nil => exact absurd rfl hne
  | cons c cs =>
    have hcd : c.isDigit = true := by
      rw [List.all_cons, Bool.and_eq_true] at h
      exact h.1
    have hcp : c ≠ '+' :=
      fun he => by rw [he] at hcd; exact absurd hcd (by decide)
    have hcm : c ≠ '-' :=
      fun he => by rw [he] at hcd; exact absurd hcd (by decide)
    simp [Py.pyIntParse, hstrip, hcp, hcm, h]

theorem digits_not_star_slash (m : Chars) (hne : m ≠ [])
    (h : m.all Char.isDigit = true) : "*/".data.isPrefixOf m = false := by
  cases m with
  | nil => exact absurd rfl hne
  | cons c cs =>
    have hcd : c.isDigit = true := by
      rw [List.all_cons, Bool.and_eq_true] at h
      exact h.1
    have hcs : c ≠ '*' :=
      fun he => by rw [he] at hcd; exact absurd hcd (by decide)
    have : ('*' == c) = false := by
      rw [beq_eq_false_iff_ne]
      exact fun he => hcs he.symm
    simp [List.isPrefixOf, this]

theorem digits_beq_star_false (m : Chars)
    (h : m.all Char.isDigit = true) : (m == "*".data) = false := by
  rw [beq_eq_false_iff_ne]
  intro he
  rw [he] at h
  exact absurd h (by decide)

/-- The timer text always embeds the `[Timer]` body chosen for the
trigger's cron expression. -/
theorem generate_timer_contains_timerLines (name : Chars) (m : Manifest)
    (trig : Trigger) (h : get_schedule_trigger m = some trig) :
    ∃ t, generate_timer name m = some t ∧ timerLines trig.cron <:+: t := by
  refine ⟨"[Unit]\nDescription=Castle timer: ".data ++
      (match m.description with
       | some d => if d.isEmpty then name else d
       | none => name) ++ "\n\n[Timer]\n".data ++ timerLines trig.cron ++
      "Persistent=false\n\n[Install]\nWantedBy=timers.target\n".data,
    ?_, ?_⟩
  · simp only [generate_timer, h]
  · exact ⟨"[Unit]\nDescription=Castle timer: ".data ++
      (match m.description with
       | some d => if d.isEmpty then name else d
       | none => name) ++ "\n\n[Timer]\n".data,
      "Persistent=false\n\n[Install]\nWantedBy=timers.target\n".data,
      rfl⟩

/-- Daily `m h * * *` schedules whose minute is not an interval pattern
(unless the hour pins it) produce the calendar line with star-or-padded
fields. -/
theorem timerLines_oncalendar (cron m h : Chars)
    (hf : cronFields cron = [m, h, "*".data, "*".data, "*".data])
    (hnp : ¬("*/".data.isPrefixOf m = true ∧ h = "*".data)) :
    timerLines cron = "OnCalendar=".data ++
      ("*-*-* ".data ++ (if h == "*".data then "*".data else Py.zfill2 h) ++
       (':' :: (if m == "*".data then "*".data else Py.zfill2 m)) ++
       ":00".data) ++ "\n".data := by
  have hcond : ("*/".data.isPrefixOf m && h == "*".data && "*".data == "*".data
      && "*".data == "*".data && "*".data == "*".data) = false := by
    by_cases hp : "*/".data.isPrefixOf m = true
    · have hh : (h == "*".data) = false := by
        rw [beq_eq_false_iff_ne]
        exact fun he => hnp ⟨hp, he⟩
      simp [hp, hh]
    · rw [Bool.not_eq_true] at hp
      simp [hp]
  have honcal : cron_to_oncalendar cron = "*-*-* ".data ++
      (if h == "*".data then "*".data else Py.zfill2 h) ++
      (':' :: (if m == "*".data then "*".data else Py.zfill2 m)) ++
      ":00".data := by
    simp only [cron_to_oncalendar, hf, hcond]
    simp
  have hne : ("*-*-* ".data ++
      (if h == "*".data then "*".data else Py.zfill2 h) ++
      (':' :: (if m == "*".data then "*".data else Py.zfill2 m)) ++
      ":00".data).isEmpty = false := rfl
  simp only [timerLines, honcal, hne]
  simp

/-- `*/N` schedules with a positive numeric `N` produce the boot-delay and
interval lines, the interval being `N·60` seconds. -/
theorem timerLines_interval (cron n : Chars)
    (hf : cronFields cron =
      ["*/".data ++ n, "*".data, "*".data, "*".data, "*".data])
    (hne : n ≠ []) (hd : n.all Char.isDigit = true)
    (hpos : 1 ≤ Py.natVal n) :
    timerLines cron = "OnBootSec=60\nOnUnitActiveSec=".data ++
      (Int.repr (Int.ofNat (Py.natVal n) * 60)).data ++ "s\n".data := by
  have hpfx : "*/".data.isPrefixOf ("*/".data ++ n) = true :=
    Config.isPrefixOf_append_self _ _
  have hdrop : ("*/".data ++ n).drop 2 = n := by
    have h2 : ("*/".data).length = 2 := rfl
    have hd2 := List.drop_left "*/".data n
    rw [h2] at hd2
    exact hd2
  have honcal : cron_to_oncalendar cron = [] := by
    simp [cron_to_oncalendar, hf, hpfx]
  have hint : cron_to_interval_sec cron =
      some (Int.ofNat (Py.natVal n) * 60) := by
    simp [cron_to_interval_sec, hf, hpfx, hdrop,
      pyIntParse_digits n hne hd]
  have hnz : Py.natVal n ≠ 0 := by omega
  simp [timerLines, honcal, hint, hnz]

/-- Schedules that do not split into five fields fall back to the 300 s
interval. -/
theorem timerLines_fallback_arity (cron : Chars)
    (h : (cronFields cron).length ≠ 5) :
    timerLines cron = "OnBootSec=60\nOnUnitActiveSec=300\n".data := by
  have honcal : cron_to_oncalendar cron = [] := by
    unfold cron_to_oncalendar
    split
    · rename_i minute hour dom month dow heq
      exfalso
      apply h
      rw [heq]
      rfl
    · rfl
  have hint : cron_to_interval_sec cron = none := by
    unfold cron_to_interval_sec
    split
    · rename_i minute hour dom month dow heq
      exfalso
      apply h
      rw [heq]
      rfl
    · rfl
  simp [timerLines, honcal, hint]

/-- Five-field schedules whose day-of-month, month and day-of-week are not
all `*` fall back to the 300 s interval. -/
theorem timerLines_fallback_dmw (cron mi h dom mon dw : Chars)
    (hf : cronFields cron = [mi, h, dom, mon, dw])
    (hns : ¬(dom = "*".data ∧ mon = "*".data ∧ dw = "*".data)) :
    timerLines cron = "OnBootSec=60\nOnUnitActiveSec=300\n".data := by
  rcases Decidable.not_and_iff_or_not.1 hns with hx | hmix
  · have hb : (dom == "*".data) = false := beq_eq_false_iff_ne.2 hx
    simp [timerLines, cron_to_oncalendar, cron_to_interval_sec, hf, hb]
  · rcases Decidable.not_and_iff_or_not.1 hmix with hx | hx
    · have hb : (mon == "*".data) = false := beq_eq_false_iff_ne.2 hx
      simp [timerLines, cron_to_oncalendar, cron_to_interval_sec, hf, hb]
    · have hb : (dw == "*".data) = false := beq_eq_false_iff_ne.2 hx
      simp [timerLines, cron_to_oncalendar, cron_to_interval_sec, hf, hb]

/-- `*/N` schedules whose `N` does not parse as an integer, or parses as
zero, fall back to the 300 s interval. -/
theorem timerLines_fallback_interval (cron n : Chars)
    (hf : cronFields cron =
      ["*/".data ++ n, "*".data, "*".data, "*".data, "*".data])
    (hp : Py.pyIntParse n = none ∨ Py.pyIntParse n = some 0) :
    timerLines cron = "OnBootSec=60\nOnUnitActiveSec=300\n".data := by
  have hpfx : "*/".data.isPrefixOf ("*/".data ++ n) = true :=
    Config.isPrefixOf_append_self _ _
  have hdrop : ("*/".data ++ n).drop 2 = n := by
    have h2 : ("*/".data).length = 2 := rfl
    have hd2 := List.drop_left "*/".data n
    rw [h2] at hd2
    exact hd2
  have honcal : cron_to_oncalendar cron = [] := by
    simp [cron_to_oncalendar, hf, hpfx]
  rcases hp with hp | hp
  · have hint : cron_to_interval_sec cron = none := by
      simp [cron_to_interval_sec, hf, hpfx, hdrop, hp]
    simp [timerLines, honcal, hint]
  · have hint : cron_to_interval_sec cron = some 0 := by
      simp [cron_to_interval_sec, hf, hpfx, hdrop, hp]
    simp [timerLines, honcal, hint]

end Cron

/-- C6 counterexample: the schedule `* * * * *` is neither a numeric
`m h * * *` nor a `*/N` pattern, yet timer generation emits
`OnCalendar=*-*-* *:*:00` instead of the claimed
`OnBootSec=60`/`OnUnitActiveSec=300` fallback. -/
theorem C6_counterexample :
    Cron.generate_timer "sweep".data
      ⟨none, [⟨"schedule".data, "* * * * *".data⟩]⟩ =
      some ("[Unit]\nDescription=Castle timer: sweep\n\n[Timer]\nOnCalendar=*-*-* *:*:00\nPersistent=false\n\n[Install]\nWantedBy=timers.target\n".data) ∧
    ("OnCalendar=*-*-* *:*:00".data <:+:
      "[Unit]\nDescription=Castle timer: sweep\n\n[Timer]\nOnCalendar=*-*-* *:*:00\nPersistent=false\n\n[Install]\nWantedBy=timers.target\n".data) ∧
    ¬ ("OnBootSec".data <:+:
      "[Unit]\nDescription=Castle timer: sweep\n\n[Timer]\nOnCalendar=*-*-* *:*:00\nPersistent=false\n\n[Install]\nWantedBy=timers.target\n".data) := by
  refine ⟨by decide, by decide, by decide⟩

/-- C6 (amended): timer generation classifies a five-field cron schedule
as follows.  A `m h * * *` schedule with numeric minute and hour yields
`OnCalendar=*-*-* HH:MM:00` (zero-padded); more generally any five-field
schedule whose last three fields are `*` — except `*/N`-minute ones with a
`*` hour — yields an `OnCalendar` with star-or-zero-padded hour and minute
fields; a `*/N * * * *` schedule with numeric `N ≥ 1` yields
`OnBootSec=60` with `OnUnitActiveSec` equal to `N·60` seconds; every other
schedule (wrong field count, a non-`*` day/month/weekday field, or an
unparsable or zero `N`) yields the fallback `OnBootSec=60` with
`OnUnitActiveSec=300`.  In each case the generated timer text embeds the
chosen `[Timer]` body. -/
theorem C6_timer_schedule_classification :
    (∀ (name : Chars) (m : Cron.Manifest) (trig : Cron.Trigger),
      Cron.get_schedule_trigger m = some trig →
      ∃ t, Cron.generate_timer name m = some t ∧
        Cron.timerLines trig.cron <:+: t) ∧
    (∀ cron m h : Chars,
      Cron.cronFields cron = [m, h, "*".data, "*".data, "*".data] →
      m ≠ [] → m.all Char.isDigit = true →
      h ≠ [] → h.all Char.isDigit = true →
      Cron.timerLines cron = "OnCalendar=".data ++
        ("*-*-* ".data ++ Py.zfill2 h ++ (':' :: Py.zfill2 m) ++
         ":00".data) ++ "\n".data) ∧
    (∀ cron m h : Chars,
      Cron.cronFields cron = [m, h, "*".data, "*".data, "*".data] →
      ¬("*/".data.isPrefixOf m = true ∧ h = "*".data) →
      Cron.timerLines cron = "OnCalendar=".data ++
        ("*-*-* ".data ++ (if h == "*".data then "*".data else Py.zfill2 h) ++
         (':' :: (if m == "*".data then "*".data else Py.zfill2 m)) ++
         ":00".data) ++ "\n".data) ∧
    (∀ cron n : Chars,
      Cron.cronFields cron =
        ["*/".data ++ n, "*".data, "*".data, "*".data, "*".data] →
      n ≠ [] → n.all Char.isDigit = true → 1 ≤ Py.natVal n →
      Cron.timerLines cron = "OnBootSec=60\nOnUnitActiveSec=".data ++
        (Int.repr (Int.ofNat (Py.natVal n) * 60)).data ++ "s\n".data) ∧
    (∀ cron : Chars, (Cron.cronFields cron).length ≠ 5 →
      Cron.timerLines cron = "OnBootSec=60\nOnUnitActiveSec=300\n".data) ∧
    (∀ cron mi h dom mon dw : Chars,
      Cron.cronFields cron = [mi, h, dom, mon, dw] →
      ¬(dom = "*".data ∧ mon = "*".data ∧ dw = "*".data) →
      Cron.timerLines cron = "OnBootSec=60\nOnUnitActiveSec=300\n".data) ∧
    (∀ cron n : Chars,
      Cron.cronFields cron =
        ["*/".data ++ n, "*".data, "*".data, "*".data, "*".data] →
      Py.pyIntParse n = none ∨ Py.pyIntParse n = some 0 →
      Cron.timerLines cron = "OnBootSec=60\nOnUnitActiveSec=300\n".data) := by
  refine ⟨Cron.generate_timer_contains_timerLines, ?_,
    Cron.timerLines_oncalendar, Cron.timerLines_interval,
    Cron.timerLines_fallback_arity, Cron.timerLines_fallback_dmw,
    Cron.timerLines_fallback_interval⟩
  intro cron m h hf hmne hmd hhne hhd
  have hnp : ¬("*/".data.isPrefixOf m = true ∧ h = "*".data) := by
    intro ⟨hp, _⟩
    rw [Cron.digits_not_star_slash m hmne hmd] at hp
    exact Bool.false_ne_true hp
  have := Cron.timerLines_oncalendar cron m h hf hnp
  rw [Cron.digits_beq_star_false m hmd,
    Cron.digits_beq_star_false h hhd] at this
  simpa using this

/-- Witness for C6 at the literal schedules `0 2 * * *` and
`*/5 * * * *`. -/
theorem C6_timer_schedule_classification_witness :
    Cron.timerLines "0 2 * * *".data =
      "OnCalendar=".data ++
        ("*-*-* ".data ++ Py.zfill2 "2".data ++
         (':' :: Py.zfill2 "0".data) ++ ":00".data) ++ "\n".data ∧
    Cron.timerLines "*/5 * * * *".data =
      "OnBootSec=60\nOnUnitActiveSec=".data ++
        (Int.repr (Int.ofNat (Py.natVal "5".data) * 60)).data ++
        "s\n".data := by
  constructor
  · exact C6_timer_schedule_classification.2.1 "0 2 * * *".data
      "0".data "2".data (by decide) (by decide) (by decide) (by decide)
      (by decide)
  · exact C6_timer_schedule_classification.2.2.2.1 "*/5 * * * *".data
      "5".data (by decide) (by decide) (by decide) (by decide)

/-! ### Secrets path lemmas -/

namespace Secrets

theorem splitChar_fold_no_sep (sep : Char) (s : Chars) (h : sep ∉ s) :
    s.foldr
      (fun c (acc : List Chars × Chars) =>
        if c = sep then (acc.2 :: acc.1, []) else (acc.1, c :: acc.2))
      ([], []) = ([], s) := by
  induction s with
  | nil => rfl
  | cons c cs ih =>
    have hc : c ≠ sep := fun he => h (he ▸ List.mem_cons_self c cs)
    have hcs : sep ∉ cs := fun hm => h (List.mem_cons_of_mem c hm)
    simp [List.foldr_cons, ih hcs, hc]

theorem splitChar_no_sep (sep : Char) (s : Chars) (h : sep ∉ s) :
    Py.splitChar sep s = [s] := by
  simp [Py.splitChar, splitChar_fold_no_sep sep s h]

theorem validate_name_spec (name : Chars)
    (hv : validate_name name = true) :
    '/' ∉ name ∧ '\\' ∉ name ∧ ¬("..".data <:+: name) ∧ name ≠ [] := by
  simp only [validate_name, Bool.not_eq_true', Bool.or_eq_false_iff] at hv
  obtain ⟨⟨⟨h1, h2⟩, h3⟩, h4⟩ := hv
  exact ⟨by simpa using h1, by simpa using h2, by simpa using h3,
    by simpa using h4⟩

end Secrets

/-- C9 counterexample: the name `"."` passes `_validate_name` (it is
non-empty and contains no slash, backslash or `".."`), yet the joined path
is the secrets directory itself, not a file directly inside it. -/
theorem C9_counterexample :
    Secrets.validate_name ".".data = true ∧
    Secrets.pathJoin ["home".data, ".castle".data, "secrets".data]
      ".".data = ["home".data, ".castle".data, "secrets".data] ∧
    ¬ ∃ c, Secrets.pathJoin ["home".data, ".castle".data, "secrets".data]
        ".".data = ["home".data, ".castle".data, "secrets".data] ++ [c] := by
  refine ⟨by decide, by decide, ?_⟩
  intro ⟨c, hc⟩
  rw [(by decide : Secrets.pathJoin
    ["home".data, ".castle".data, "secrets".data] ".".data =
    ["home".data, ".castle".data, "secrets".data])] at hc
  have := congrArg List.length hc
  simp at this

/-- C9 (amended): every secrets endpoint rejects with HTTP 400, before any
filesystem access, every name that is empty or contains a slash, a
backslash or the substring `".."`; for every accepted name the single path
the endpoint touches is the secrets directory joined with the name, which
is the directory itself when the name is `"."` and a direct child of the
directory otherwise. -/
theorem C9_secrets_validation_confines_paths :
    (∀ (fs : Secrets.PathC → Option Chars) (dir : Secrets.PathC)
       (name body : Chars),
      (name.contains '/' = true ∨ name.contains '\\' = true ∨
        "..".data <:+: name ∨ name = []) →
      Secrets.get_secret fs dir name = (.error 400, []) ∧
      Secrets.set_secret dir name body = (.error 400, []) ∧
      Secrets.delete_secret dir name = (.error 400, [])) ∧
    (∀ (dir : Secrets.PathC) (name : Chars),
      Secrets.validate_name name = true →
      (name = ".".data ∧ Secrets.pathJoin dir name = dir) ∨
      Secrets.pathJoin dir name = dir ++ [name]) ∧
    (∀ (fs : Secrets.PathC → Option Chars) (dir : Secrets.PathC)
       (name body : Chars),
      Secrets.validate_name name = true →
      (Secrets.get_secret fs dir name).2 = [Secrets.pathJoin dir name] ∧
      (Secrets.set_secret dir name body).2 = [Secrets.pathJoin dir name] ∧
      (Secrets.delete_secret dir name).2 = [Secrets.pathJoin dir name]) := by
  refine ⟨?_, ?_, ?_⟩
  · intro fs dir name body hbad
    have hval : Secrets.validate_name name = false := by
      simp only [Secrets.validate_name, Bool.not_eq_false']
      simp only [Bool.or_eq_true, decide_eq_true_eq, List.isEmpty_iff]
      rcases hbad with hb | hb | hb | hb
      · exact Or.inl (Or.inl (Or.inl hb))
      · exact Or.inl (Or.inl (Or.inr hb))
      · exact Or.inl (Or.inr hb)
      · exact Or.inr hb
    exact ⟨by simp [Secrets.get_secret, hval],
      by simp [Secrets.set_secret, hval],
      by simp [Secrets.delete_secret, hval]⟩
  · intro dir name hv
    obtain ⟨hs, _, _, hne⟩ := Secrets.validate_name_spec name hv
    have habs : ("/".data.isPrefixOf name) = false := by
      cases name with
      | nil => rfl
      | cons c cs =>
        have hc : c ≠ '/' :=
          fun he => hs (he ▸ List.mem_cons_self c cs)
        have : ('/' == c) = false := by
          rw [beq_eq_false_iff_ne]
          exact fun he => hc he.symm
        simp [List.isPrefixOf, this]
    have hsplit : Secrets.splitSlash name = [name] :=
      Secrets.splitChar_no_sep '/' name hs
    by_cases hdot : name = ".".data
    · left
      refine ⟨hdot, ?_⟩
      have hfilt : ([name].filter
          (fun c => !(c.isEmpty || c == ".".data))) = [] := by
        rw [hdot]
        decide
      simp [Secrets.pathJoin, habs, hsplit, hfilt, hdot]
      decide
    · right
      have hbeq : (name == ".".data) = false := beq_eq_false_iff_ne.2 hdot
      have hie : name.isEmpty = false := by
        cases name
        · exact absurd rfl hne
        · rfl
      simp [Secrets.pathJoin, habs, hsplit, hbeq, hie]
  · intro fs dir name body hv
    have hnf : ¬ Secrets.validate_name name = false := by simp [hv]
    refine ⟨?_, ?_, ?_⟩
    · cases hfs : fs (Secrets.pathJoin dir name) <;>
        simp [Secrets.get_secret, hnf, hfs]
    · simp [Secrets.set_secret, hnf]
    · simp [Secrets.delete_secret, hnf]

/-- Witness for C9: the traversal name `../x` is rejected with 400 and no
filesystem access; the plain name `api` resolves to a direct child of the
secrets directory. -/
theorem C9_secrets_validation_confines_paths_witness :
    Secrets.get_secret (fun _ => none)
      ["home".data, ".castle".data, "secrets".data] "../x".data =
      (.error 400, []) ∧
    (("api".data = ".".data ∧
      Secrets.pathJoin ["home".data, ".castle".data, "secrets".data]
        "api".data = ["home".data, ".castle".data, "secrets".data]) ∨
     Secrets.pathJoin ["home".data, ".castle".data, "secrets".data]
        "api".data =
       ["home".data, ".castle".data, "secrets".data] ++ ["api".data]) :=
  ⟨(C9_secrets_validation_confines_paths.1 (fun _ => none)
      ["home".data, ".castle".data, "secrets".data] "../x".data []
      (Or.inl (by decide))).1,
   C9_secrets_validation_confines_paths.2.1
      ["home".data, ".castle".data, "secrets".data] "api".data (by decide)⟩
